import Mathlib

/-!
Verification development for the runtime core of a Jinja-compatible template
interpreter (`src/packages/jinja/src/runtime.ts`).

The evaluator is shallowly embedded: the tagged runtime-value hierarchy becomes
an inductive `Value`, the mutable `Environment` parent chain becomes a store of
frames with index-based parent pointers (frames are only ever created with an
already-existing parent, so parent indices are strictly smaller than the frame's
own index), and each interpreter method becomes a fuel-indexed function
returning a `Res` outcome (`ok` / `err`, plus `brk` / `cont` for the
`BreakControl` / `ContinueControl` exceptions).  Recursion is structural on the
fuel so that closed evaluations reduce definitionally.

Modelling notes (host-language semantics made explicit):
* JavaScript numbers are split by the source into `IntegerValue` / `FloatValue`;
  integers are modelled as `Int`, floats as `Rat`.  Claims about floats in this
  development concern only the type tag of results, never f64 rounding.
* JavaScript strings are modelled as Lean `String` (code points; the source
  itself iterates `Array.from` for user-visible string iteration).
* `Array.prototype.reverse` / `sort` mutate their receiver in place; the main
  evaluator treats arrays as values, and the in-place effect relevant to the
  immutability claim is modelled separately (`reverseFilterEffect`,
  `sortFilterEffect`).
* Host-supplied callables (arbitrary JavaScript functions seeded through
  `Environment.set`) are not representable in a strictly positive inductive;
  the function values that the interpreter itself creates (macros, `caller`
  blocks, per-type builtin methods, the `namespace` global) are all modelled.
-/

namespace Jinja

/-! ## JavaScript-flavoured primitive helpers -/

/-- Whitespace as used by the source's `\S` regex, `trim`, `trimStart`,
`trimEnd` (ASCII subset of the JavaScript whitespace class). -/
def jsIsSpace (c : Char) : Bool :=
  c = ' ' ∨ c = '\t' ∨ c = '\n' ∨ c = '\r' ∨ c = '\x0b' ∨ c = '\x0c'

/-- JavaScript `String(b)` for booleans. -/
def jsBoolStr (b : Bool) : String := cond b "true" "false"

/-- Decimal digits of `n / d` (both natural, `d ≠ 0`), up to `fuel` places,
dropping trailing zeros implicitly by stopping when the remainder is zero. -/
def fracDigitsAux : Nat → Nat → Nat → String
  | _, _, 0 => ""
  | n, d, fuel + 1 =>
    if n = 0 then ""
    else
      let n10 := n * 10
      toString (n10 / d) ++ fracDigitsAux (n10 % d) d fuel

/-- Rendering of a raw JavaScript number (`Number.prototype.toString`):
integral numbers print with no decimal point, otherwise a decimal expansion.
(For non-terminating expansions this is an approximation of the f64 shortest
round-trip form; such payloads are not used by any claim.) -/
def jsNumberToString (q : Rat) : String :=
  let sign := if q.num < 0 then "-" else ""
  let a := q.num.natAbs
  let d := q.den
  if d = 1 then sign ++ toString a
  else sign ++ toString (a / d) ++ "." ++ fracDigitsAux (a % d) d 30

/-- `FloatValue.toString`: `value % 1 === 0 ? value.toFixed(1) : value.toString()`
(runtime.ts:94-96). -/
def floatValueToString (q : Rat) : String :=
  if q.den = 1 then jsNumberToString q ++ ".0" else jsNumberToString q

/-- Truncation of a rational toward zero (JavaScript `a % b` is computed with
truncating division). -/
def ratTrunc (q : Rat) : Int := q.num.tdiv q.den

/-- JavaScript `%` on two numbers: `a - b * trunc(a / b)`.  (For `b = 0` the
host produces `NaN`; the model returns `0`; no claim depends on that payload.) -/
def ratRem (a b : Rat) : Rat :=
  if b = 0 then 0 else a - b * (ratTrunc (a / b) : Rat)

/-- JavaScript `parseInt(s, 10)`: skip leading whitespace, optional sign, then
the maximal run of decimal digits; `none` when no digit is found (`NaN`). -/
def jsParseInt (s : String) : Option Int :=
  let cs := s.toList.dropWhile jsIsSpace
  let (neg, cs) := match cs with
    | '-' :: rest => (true, rest)
    | '+' :: rest => (false, rest)
    | rest => (false, rest)
  let digits := cs.takeWhile Char.isDigit
  if digits.isEmpty then none
  else
    let n := digits.foldl (fun acc c => acc * 10 + (c.toNat - '0'.toNat)) 0
    some (if neg then -(n : Int) else (n : Int))

/-- JavaScript `parseFloat(s)`: leading whitespace, optional sign, decimal
digits with an optional fractional part.  (Exponent notation is not modelled;
no claim depends on it.) -/
def jsParseFloat (s : String) : Option Rat :=
  let cs := s.toList.dropWhile jsIsSpace
  let (neg, cs) := match cs with
    | '-' :: rest => (true, rest)
    | '+' :: rest => (false, rest)
    | rest => (false, rest)
  let intDigits := cs.takeWhile Char.isDigit
  let rest := cs.dropWhile Char.isDigit
  let fracDigits := match rest with
    | '.' :: r => r.takeWhile Char.isDigit
    | _ => []
  if intDigits.isEmpty ∧ fracDigits.isEmpty then none
  else
    let ip : Nat := intDigits.foldl (fun acc c => acc * 10 + (c.toNat - '0'.toNat)) 0
    let fp : Nat := fracDigits.foldl (fun acc c => acc * 10 + (c.toNat - '0'.toNat)) 0
    let q : Rat := (ip : Rat) + (fp : Rat) / ((10 : Rat) ^ fracDigits.length)
    some (if neg then -q else q)

/-- ASCII uppercase of a string (`String.prototype.toUpperCase`, restricted to
the ASCII range as Lean's `Char.toUpper`). -/
def jsToUpper (s : String) : String := s.map Char.toUpper

/-- ASCII lowercase of a string. -/
def jsToLower (s : String) : String := s.map Char.toLower

/-- JavaScript `String.prototype.trim`. -/
def jsTrim (s : String) : String :=
  String.mk (((s.toList.dropWhile jsIsSpace).reverse.dropWhile jsIsSpace).reverse)

/-- JavaScript `String.prototype.trimStart`. -/
def jsTrimStart (s : String) : String := String.mk (s.toList.dropWhile jsIsSpace)

/-- JavaScript `String.prototype.trimEnd`. -/
def jsTrimEnd (s : String) : String :=
  String.mk ((s.toList.reverse.dropWhile jsIsSpace).reverse)

/-! ## Abstract syntax (contract with the parser, runtime.ts:1-29 and §6 of the
spec).  A single inductive mirrors the source's single `Statement` hierarchy;
`evaluate` dispatches on the node kind.  Slice bounds are `Option Node` because
the parser leaves absent bounds `undefined` and `evaluate(undefined)` yields
`UndefinedValue` (runtime.ts:1416). -/

inductive Node where
  | program (body : List Node)
  | setStmt (assignee : Node) (value : Option Node) (body : List Node)
  | ifStmt (test : Node) (body alternate : List Node)
  | forStmt (loopvar : Node) (iterable : Node) (body defaultBlock : List Node)
  | macroDef (name : String) (args : List Node) (body : List Node)
  | callStmt (callee : Node) (callArgs : List Node) (callerArgs : Option (List Node))
      (body : List Node)
  | breakStmt
  | continueStmt
  | commentStmt
  | intLit (n : Int)
  | floatLit (q : Rat)
  | strLit (s : String)
  | arrayLit (xs : List Node)
  | tupleLit (xs : List Node)
  | objectLit (kvs : List (Node × Node))
  | ident (name : String)
  | callEx (callee : Node) (args : List Node)
  | memberEx (object : Node) (computed : Bool) (property : Node)
  | unaryEx (op : String) (argument : Node)
  | binaryEx (op : String) (left right : Node)
  | filterEx (operand : Node) (filterNode : Node)
  | filterStmt (filterNode : Node) (body : List Node)
  | testEx (operand : Node) (testName : String) (negate : Bool)
  | selectEx (lhs test : Node)
  | ternaryEx (condition trueExpr falseExpr : Node)
  | sliceEx (start stop step : Option Node)
  | kwargEx (key : String) (value : Node)
  | spreadEx (argument : Node)
deriving Repr

/-! ## Runtime values (runtime.ts:32-375).

One inductive with a constructor per `RuntimeValue` subclass.  The
`FunctionValue` closures that the interpreter itself creates are represented by
dedicated constructors: a macro closure captures only the macro's parameter
nodes and body (the source closure captures the AST node and `this`, never the
definition environment — scoping is over call sites), a `caller` closure
captures the call-statement's declared parameters and body, and a builtin
method is a (receiver, method-name) pair resolved by `callBuiltin` (the
source's per-instance `builtins` maps bind `this` at construction; the
dispatch-by-pair view is observationally the same resolution). -/

inductive Value where
  | int (n : Int)
  | float (q : Rat)
  | str (s : String)
  | bool (b : Bool)
  | null
  | undef
  | array (xs : List Value)
  | tuple (xs : List Value)
  | obj (entries : List (String × Value))
  | kwargsV (entries : List (String × Value))
  | funcMacro (params : List Node) (body : List Node)
  | funcCaller (params : Option (List Node)) (body : List Node)
  | funcBuiltin (recv : Value) (name : String)
  | funcNamespace
deriving Repr

namespace Value

/-- The `type` tag strings used throughout the source for dispatch
(`"IntegerValue"`, `"StringValue"`, ...). -/
def tag : Value → String
  | .int _ => "IntegerValue"
  | .float _ => "FloatValue"
  | .str _ => "StringValue"
  | .bool _ => "BooleanValue"
  | .null => "NullValue"
  | .undef => "UndefinedValue"
  | .array _ => "ArrayValue"
  | .tuple _ => "TupleValue"
  | .obj _ => "ObjectValue"
  | .kwargsV _ => "KeywordArgumentsValue"
  | .funcMacro _ _ => "FunctionValue"
  | .funcCaller _ _ => "FunctionValue"
  | .funcBuiltin _ _ => "FunctionValue"
  | .funcNamespace => "FunctionValue"

/-- `instanceof ArrayValue` (`TupleValue extends ArrayValue`). -/
def isArrayLike : Value → Bool
  | .array _ | .tuple _ => true
  | _ => false

/-- `instanceof ObjectValue` (`KeywordArgumentsValue extends ObjectValue`). -/
def isObjectLike : Value → Bool
  | .obj _ | .kwargsV _ => true
  | _ => false

/-- `instanceof FunctionValue`. -/
def isFunc : Value → Bool
  | .funcMacro _ _ | .funcCaller _ _ | .funcBuiltin _ _ | .funcNamespace => true
  | _ => false

/-- Element list of an array-like value. -/
def elems : Value → List Value
  | .array xs | .tuple xs => xs
  | _ => []

/-- Entry list of an object-like value. -/
def objEntries : Value → List (String × Value)
  | .obj m | .kwargsV m => m
  | _ => []

/-- `__bool__` (runtime.ts:72-74, with the `ObjectValue`/`ArrayValue`
overrides at 289-291 and 343-345): JavaScript truthiness of the payload except
that arrays and objects test emptiness. -/
def truthy : Value → Bool
  | .int n => n ≠ 0
  | .float q => q ≠ 0
  | .str s => s ≠ ""
  | .bool b => b
  | .null => false
  | .undef => false
  | .array xs => ¬xs.isEmpty
  | .tuple xs => ¬xs.isEmpty
  | .obj m => ¬m.isEmpty
  | .kwargsV m => ¬m.isEmpty
  | _ => true

/-- Raw JavaScript truthiness of the stored payload (`!!this.value` with no
override), as used by the unary `not` operator (runtime.ts:1051): note a
JavaScript array or `Map` object is always truthy regardless of emptiness. -/
def payloadTruthy : Value → Bool
  | .int n => n ≠ 0
  | .float q => q ≠ 0
  | .str s => s ≠ ""
  | .bool b => b
  | .null => false
  | .undef => false
  | _ => true

end Value

mutual

/-- `RuntimeValue.toString` (runtime.ts:76-78 plus the `FloatValue` override):
`String(this.value)`.  For arrays this joins the elements' own `toString`s with
commas (JavaScript `Array.prototype.toString`); a `Map` payload stringifies as
`[object Map]`; a function payload's source text is abstracted as
`"function"` (never inspected by a claim). -/
def valueToString : Value → String
  | .int n => toString n
  | .float q => floatValueToString q
  | .str s => s
  | .bool b => jsBoolStr b
  | .null => "null"
  | .undef => "undefined"
  | .array xs => listToStringComma xs
  | .tuple xs => listToStringComma xs
  | .obj _ => "[object Map]"
  | .kwargsV _ => "[object Map]"
  | _ => "function"

/-- Comma join of element renderings (JavaScript array `toString`). -/
def listToStringComma : List Value → String
  | [] => ""
  | [v] => valueToString v
  | v :: vs => valueToString v ++ "," ++ listToStringComma vs

end

/-- `left.value.toString()` as used by `~` and string `+` concatenation
(runtime.ts:579,633): the **payload**'s own `toString`, so an integral float
prints without the `.0` suffix that `FloatValue.toString` would add. -/
def payloadToString : Value → String
  | .float q => jsNumberToString q
  | v => valueToString v

/-! ## Environments (runtime.ts:380-509).

The mutable parent-linked `Environment` objects become a store of frames
addressed by index; a frame's parent pointer is the index of an
already-existing frame, hence always smaller than the frame's own index for
stores built by the interpreter. -/

/-- The variables every fresh `Environment` starts with: the `namespace`
builtin (runtime.ts:384-397). -/
def baseVars : List (String × Value) := [("namespace", Value.funcNamespace)]

structure Frame where
  vars : List (String × Value)
  parent : Option Nat
deriving Repr

structure Store where
  frames : List Frame
deriving Repr

/-- `new Environment(parent)`: append a fresh frame; its index is the previous
`frames.length`. -/
def pushFrame (parent : Option Nat) (st : Store) : Store :=
  ⟨st.frames ++ [⟨baseVars, parent⟩]⟩

/-- JavaScript `Map.set` on an insertion-ordered association list: overwrite in
place if the key exists, else append. -/
def setEntry (m : List (String × Value)) (k : String) (v : Value) :
    List (String × Value) :=
  match m with
  | [] => [(k, v)]
  | (k', v') :: rest => if k' = k then (k, v) :: rest else (k', v') :: setEntry rest k v

/-- Replace frame `id` (no-op on an out-of-range index, which the interpreter
never produces). -/
def updateFrame (st : Store) (id : Nat) (f : Frame → Frame) : Store :=
  match st.frames[id]? with
  | some fr => ⟨st.frames.set id (f fr)⟩
  | none => st

/-- `Environment.setVariable` (runtime.ts:479-482): write to the current frame
unconditionally, never walking the parent chain. -/
def setVar (st : Store) (id : Nat) (name : String) (v : Value) : Store :=
  updateFrame st id (fun fr => ⟨setEntry fr.vars name v, fr.parent⟩)

/-- Fuel-bounded parent-chain walk behind `resolve`; the fuel `id + 1` in
`resolve` always suffices because interpreter-built parent indices strictly
decrease. -/
def resolveAux (st : Store) : Nat → Nat → String → Option Nat
  | 0, _, _ => none
  | fuel + 1, id, name =>
    match st.frames[id]? with
    | none => none
    | some fr =>
      if (fr.vars.lookup name).isSome then some id
      else
        match fr.parent with
        | none => none
        | some p => resolveAux st fuel p name

/-- `Environment.resolve` (runtime.ts:489-500): the innermost frame in which
`name` is declared, or `none` (the source throws `Unknown variable`, caught by
`lookupVariable`). -/
def resolve (st : Store) (id : Nat) (name : String) : Option Nat :=
  resolveAux st (id + 1) id name

/-- `Environment.lookupVariable` (runtime.ts:502-508): the nearest binding, or
`Undefined` when the chain has none — this function never fails. -/
def lookupVariable (st : Store) (id : Nat) (name : String) : Value :=
  match resolve st id name with
  | some fid =>
    match st.frames[fid]? with
    | some fr => (fr.vars.lookup name).getD .undef
    | none => .undef
  | none => (.undef)

/-- Well-formedness of a store: every parent pointer names an earlier frame.
Every store the interpreter builds satisfies this (frames are appended with an
existing parent). -/
def storeWF (st : Store) : Bool :=
  (List.range st.frames.length).all fun i =>
    match st.frames[i]? with
    | some fr =>
      match fr.parent with
      | some p => p < i
      | none => true
    | none => true

/-! ## Evaluation outcomes.

`ok` / `err` model normal return and thrown `Error`s; `brk` / `cont` model the
`BreakControl` / `ContinueControl` exceptions (runtime.ts:44-45), which
propagate like thrown errors until the nearest `For` loop body catches them.
Because environment mutations performed before the exception persist in the
source, `brk` / `cont` carry the store at the point of the throw. -/

inductive Res (α : Type) : Type where
  | ok : α → Res α
  | err : String → Res α
  | brk : Store → Res α
  | cont : Store → Res α
deriving Repr

def Res.bind {α β : Type} : Res α → (α → Res β) → Res β
  | .ok a, f => f a
  | .err m, _ => .err m
  | .brk st, _ => .brk st
  | .cont st, _ => .cont st

instance : Monad Res where
  pure := Res.ok
  bind := Res.bind

/-- Lift a pure `Except` computation (a helper that can only throw) into `Res`. -/
def liftE {α : Type} : Except String α → Res α
  | .ok a => .ok a
  | .error m => .err m

/-! ## Host values and `Environment.set` (runtime.ts:457-467, 1494-1525). -/

/-- Host (JavaScript) values convertible by `convertToRuntimeValues`.  A number
is one constructor, split by `Number.isInteger` at conversion time.  Host
callables are outside the model (see header note). -/
inductive HostValue where
  | numH (q : Rat)
  | strH (s : String)
  | boolH (b : Bool)
  | nullH
  | undefH
  | arrH (xs : List HostValue)
  | objH (entries : List (String × HostValue))
deriving Repr

mutual

/-- `convertToRuntimeValues` (runtime.ts:1494-1525) restricted to non-callable
host values. -/
def convertToRuntimeValues : HostValue → Value
  | .numH q => if q.den = 1 then .int q.num else .float q
  | .strH s => .str s
  | .boolH b => .bool b
  | .nullH => .null
  | .undefH => .undef
  | .arrH xs => .array (convertHostList xs)
  | .objH entries => .obj (convertHostEntries entries)

def convertHostList : List HostValue → List Value
  | [] => []
  | h :: rest => convertToRuntimeValues h :: convertHostList rest

def convertHostEntries : List (String × HostValue) → List (String × Value)
  | [] => []
  | (k, h) :: rest => (k, convertToRuntimeValues h) :: convertHostEntries rest

end

/-- `Environment.declareVariable` (runtime.ts:461-467): refuse to declare a
name twice in the same frame. -/
def declareVariable (st : Store) (id : Nat) (name : String) (v : Value) :
    Except String Store :=
  match st.frames[id]? with
  | none => .error "unknown environment"
  | some fr =>
    if (fr.vars.lookup name).isSome then .error ("Variable already declared: " ++ name)
    else .ok (setVar st id name v)

/-- `Environment.set` (runtime.ts:457-459): convert a host value and declare
it. -/
def envSet (st : Store) (id : Nat) (name : String) (h : HostValue) :
    Except String Store :=
  declareVariable st id name (convertToRuntimeValues h)

/-! ## Equality (JavaScript `===` / `==` on stored payloads).

Payloads of reference type (arrays, `Map`s, functions) compare by object
identity in the host; a pure term model cannot track identity, so such
comparisons are modelled as `false` (two independently evaluated literals are
indeed distinct references; the one identity case — comparing a reference with
itself — is not exercised by any claim). -/

/-- `left.value === right.value` (used by `in` on arrays (runtime.ts:620), the
`equalto`/`eq` tests (448-449), and `unique`'s `Set` membership). -/
def jsStrictEq (a b : Value) : Bool :=
  match a, b with
  | .int x, .int y => x = y
  | .int x, .float y => (x : Rat) = y
  | .float x, .int y => x = (y : Rat)
  | .float x, .float y => x = y
  | .str s, .str t => s = t
  | .bool x, .bool y => x = y
  | .null, .null => true
  | .undef, .undef => true
  | _, _ => false

/-- JavaScript `Number(s)` for a string: trimmed, `""` is `0`, otherwise a
full-string decimal numeral (exponent/hex forms are not modelled; they are not
exercised by any claim). -/
def jsNumberOfString (s : String) : Option Rat :=
  let t := jsTrim s
  if t = "" then some 0
  else
    let cs := t.toList
    let (neg, cs) := match cs with
      | '-' :: rest => (true, rest)
      | '+' :: rest => (false, rest)
      | rest => (false, rest)
    let intDigits := cs.takeWhile Char.isDigit
    let rest1 := cs.dropWhile Char.isDigit
    let (fracDigits, rest2) := match rest1 with
      | '.' :: r => (r.takeWhile Char.isDigit, r.dropWhile Char.isDigit)
      | r => ([], r)
    if rest2.isEmpty ∧ ¬(intDigits.isEmpty ∧ fracDigits.isEmpty) then
      let ip : Nat := intDigits.foldl (fun acc c => acc * 10 + (c.toNat - '0'.toNat)) 0
      let fp : Nat := fracDigits.foldl (fun acc c => acc * 10 + (c.toNat - '0'.toNat)) 0
      let q : Rat := (ip : Rat) + (fp : Rat) / ((10 : Rat) ^ fracDigits.length)
      some (if neg then -q else q)
    else none

/-- JavaScript `ToNumber` on a primitive payload, for `==` coercions. -/
def jsToNumber : Value → Option Rat
  | .int n => some (n : Rat)
  | .float q => some q
  | .bool b => some (cond b 1 0)
  | .str s => jsNumberOfString s
  | _ => none

/-- `left.value == right.value` (runtime.ts:564): JavaScript loose equality on
the payloads — `null == undefined`, numeric comparison across
`Integer`/`Float`, boolean and numeric-string coercion to number. -/
def jsLooseEq (a b : Value) : Bool :=
  match a, b with
  | .null, .null => true
  | .undef, .undef => true
  | .null, .undef => true
  | .undef, .null => true
  | .null, _ => false
  | _, .null => false
  | .undef, _ => false
  | _, .undef => false
  | .str s, .str t => s = t
  | .bool x, .bool y => x = y
  | a, b =>
    if a.isArrayLike ∨ a.isObjectLike ∨ a.isFunc ∨ b.isArrayLike ∨ b.isObjectLike ∨
        b.isFunc then
      false
    else
      match jsToNumber a, jsToNumber b with
      | some x, some y => x = y
      | _, _ => false

/-! ## Test registry (runtime.ts:402-450).

The registry is identical on every `Environment`; `evaluateTestExpression`
calls a test with the single operand (so the two-argument `equalto`/`eq`
crash on a missing second argument — a host `TypeError`, modelled as an
error), while `selectattr`/`rejectattr` pass `(attribute value, extra)`. -/

def applyTest (name : String) (operand : Value) (extra : Option Value) :
    Except String Bool :=
  match name with
  | "boolean" => .ok (operand.tag = "BooleanValue")
  | "callable" => .ok operand.isFunc
  | "odd" =>
    match operand with
    | .int n => .ok (n.tmod 2 ≠ 0)
    | _ => .error ("cannot odd on " ++ operand.tag)
  | "even" =>
    match operand with
    | .int n => .ok (n.tmod 2 = 0)
    | _ => .error ("cannot even on " ++ operand.tag)
  | "false" => .ok (match operand with | .bool b => ¬b | _ => false)
  | "true" => .ok (match operand with | .bool b => b | _ => false)
  | "none" => .ok (operand.tag = "NullValue")
  | "string" => .ok (operand.tag = "StringValue")
  | "number" => .ok (operand.tag = "IntegerValue" ∨ operand.tag = "FloatValue")
  | "integer" => .ok (operand.tag = "IntegerValue")
  | "iterable" => .ok (operand.tag = "ArrayValue" ∨ operand.tag = "StringValue")
  | "mapping" => .ok (operand.tag = "ObjectValue")
  | "lower" => .ok (match operand with | .str s => s = jsToLower s | _ => false)
  | "upper" => .ok (match operand with | .str s => s = jsToUpper s | _ => false)
  | "defined" => .ok (operand.tag ≠ "UndefinedValue")
  | "undefined" => .ok (operand.tag = "UndefinedValue")
  | "equalto" | "eq" =>
    match extra with
    | some b => .ok (jsStrictEq operand b)
    | none => .error "TypeError: cannot read value of undefined"
  | _ => .error ("Unknown test: " ++ name)

/-! ## The string `split` builtin (runtime.ts:195-236). -/

/-- The `matchAll(/\S+/g)` loop of the whitespace mode of `split`
(runtime.ts:210-221): emit maximal runs of non-whitespace; once `maxsplit`
parts have been pushed, push the current match together with everything after
it (`match + text.slice(index + match.length)`) and stop.  `count` is
`result.length`; the fuel strictly exceeds the number of remaining tokens
whenever it exceeds the length of `cs`. -/
def splitWsAux : Nat → Int → Nat → List Char → List (List Char)
  | 0, _, _, _ => []
  | fuel + 1, maxsplit, count, cs =>
    let cs' := cs.dropWhile jsIsSpace
    if cs'.isEmpty then []
    else
      let tok := cs'.takeWhile fun c => !jsIsSpace c
      let rest := cs'.dropWhile fun c => !jsIsSpace c
      if maxsplit ≠ -1 ∧ maxsplit ≤ (count : Int) then [cs']
      else tok :: splitWsAux fuel maxsplit (count + 1) rest

/-- Whitespace mode of `split`: `sep = Null` — trim leading whitespace, then
run the match loop. -/
def pySplitWs (cs : List Char) (maxsplit : Int) : List (List Char) :=
  splitWsAux (cs.length + 1) maxsplit 0 (cs.dropWhile jsIsSpace)

/-- JavaScript `String.prototype.split` with a non-empty separator
`c0 :: crest` (runtime.ts:227): split at every occurrence; consecutive
separators delimit empty strings.  The fuel strictly exceeds `cs.length`. -/
def splitSepAux : Nat → Char → List Char → List Char → List (List Char)
  | 0, _, _, _ => [[]]
  | fuel + 1, c0, crest, cs =>
    match cs with
    | [] => [[]]
    | c :: rest =>
      if (c0 :: crest).isPrefixOf (c :: rest) then
        [] :: splitSepAux fuel c0 crest ((c :: rest).drop (crest.length + 1))
      else
        match splitSepAux fuel c0 crest rest with
        | t :: ts => (c :: t) :: ts
        | [] => [[c]]

/-- Entry point for the separator mode. -/
def jsSplitSep (cs : List Char) (c0 : Char) (crest : List Char) : List (List Char) :=
  splitSepAux (cs.length + 1) c0 crest cs

/-- The `split` builtin body (runtime.ts:199-235).  `args[0] ?? Null` is the
separator, `args[1] ?? -1` the maxsplit.  In separator mode, when
`result.length > maxsplit` the elements from index `maxsplit` on are spliced
out and re-joined with the separator as the final element (a negative
`maxsplit ≠ -1` counts from the end, as JavaScript `splice` does). -/
def splitBuiltin (s : String) (args : List Value) : Except String Value :=
  let sep := args.getD 0 .null
  if ¬(sep.tag = "StringValue" ∨ sep.tag = "NullValue") then
    .error "sep argument must be a string or null"
  else
    let maxsplitV := args.getD 1 (.int (-1))
    match maxsplitV with
    | .int m =>
      match sep with
      | .null =>
        .ok (.array ((pySplitWs s.toList m).map fun t => .str (String.mk t)))
      | .str sepStr =>
        match sepStr.toList with
        | [] => .error "empty separator"
        | c0 :: crest =>
          let parts := jsSplitSep s.toList c0 crest
          let parts :=
            if m ≠ -1 ∧ (m : Int) < (parts.length : Int) then
              let start : Nat := if m < 0 then ((parts.length : Int) + m).toNat else m.toNat
              parts.take start ++ [List.intercalate (c0 :: crest) (parts.drop start)]
            else parts
          .ok (.array (parts.map fun t => .str (String.mk t)))
      | _ => .error "sep argument must be a string or null"
    | _ => .error "maxsplit argument must be a number"

/-! ## Helpers of `utils.ts`, which is not under `src/` — modelled from the
spec (only tests/callers of these are available; the spec is the authority
here). -/

/-- Modelled from the spec: `replace` from `utils.ts` (not under `src/`):
"Replace first `count` left-to-right non-overlapping occurrences (or all if
`Null`)" (spec §4.A).  `remaining = -1` encodes the unlimited case; an empty
pattern leaves the string unchanged (the spec does not address it and no claim
exercises it). -/
def replaceAux : Nat → List Char → List Char → List Char → Int → List Char
  | 0, cs, _, _, _ => cs
  | fuel + 1, cs, oldL, newL, remaining =>
    match cs with
    | [] => []
    | c :: rest =>
      if remaining ≠ 0 ∧ ¬oldL.isEmpty ∧ oldL.isPrefixOf cs then
        newL ++ replaceAux fuel (cs.drop oldL.length) oldL newL (remaining - 1)
      else c :: replaceAux fuel rest oldL newL remaining

/-- Modelled from the spec: entry point for `replace` (`count = none` replaces
every occurrence). -/
def replaceStr (s oldS newS : String) (count : Option Int) : String :=
  String.mk
    (replaceAux (s.length + 1) s.toList oldS.toList newS.toList (count.getD (-1)))

/-- Modelled from the spec: `titleCase` from `utils.ts` (not under `src/`):
"`title` title-cases each whitespace-separated word" (spec §4.A) — first
letter of each word uppercased, the rest lowercased. -/
def titleCaseAux : List Char → Bool → List Char
  | [], _ => []
  | c :: rest, atStart =>
    if jsIsSpace c then c :: titleCaseAux rest true
    else (if atStart then c.toUpper else c.toLower) :: titleCaseAux rest false

/-- Modelled from the spec: `titleCase` entry point. -/
def titleCase (s : String) : String := String.mk (titleCaseAux s.toList true)

/-- Modelled from the spec: index sequence of `slice` from `utils.ts` (not
under `src/`): "Semantics mirror Python: negative indices count from end;
negative `step` reverses; default step is 1" (spec §4.D).  A zero step yields
an empty result (the spec does not address it; no claim exercises it). -/
def pySliceIdx (n : Nat) (start stop step : Option Int) : List Int :=
  let stp := step.getD 1
  if stp = 0 then []
  else if stp > 0 then
    let norm : Int → Int := fun i =>
      let j := if i < 0 then i + (n : Int) else i
      max 0 (min j (n : Int))
    let lo := norm (start.getD 0)
    let hi := norm (stop.getD (n : Int))
    let cnt : Nat := (((hi - lo) + stp - 1) / stp).toNat
    (List.range cnt).map fun k => lo + stp * (k : Int)
  else
    let norm : Int → Int := fun i =>
      let j := if i < 0 then i + (n : Int) else i
      max (-1) (min j ((n : Int) - 1))
    let lo := match start with
      | none => (n : Int) - 1
      | some i => norm i
    let hi := match stop with
      | none => -1
      | some i => norm i
    let cnt : Nat := (((hi - lo) + stp + 1) / stp).toNat
    (List.range cnt).map fun k => lo + stp * (k : Int)

/-- Modelled from the spec: `slice` applied to a list. -/
def sliceList {α : Type} (xs : List α) (start stop step : Option Int) : List α :=
  (pySliceIdx xs.length start stop step).filterMap fun i =>
    if i < 0 then none else xs[i.toNat]?

/-! ## JSON serializer (`toJSON`, runtime.ts:1534-1569). -/

/-- Two-digit lowercase hex of a byte. -/
def hex2 (n : Nat) : String :=
  let d := fun k => (Nat.digitChar k)
  String.mk [d ((n / 16) % 16), d (n % 16)]

/-- `JSON.stringify` string escaping. -/
def jsonEscape (s : String) : String :=
  s.toList.foldl
    (fun acc c =>
      acc ++
        if c = '"' then "\\\""
        else if c = '\\' then "\\\\"
        else if c = '\n' then "\\n"
        else if c = '\r' then "\\r"
        else if c = '\t' then "\\t"
        else if c = '\x08' then "\\b"
        else if c = '\x0c' then "\\f"
        else if c.toNat < 0x20 then "\\u00" ++ hex2 c.toNat
        else String.mk [c])
    ""

/-- `s.repeat(n)`. -/
def strRepeat (s : String) (n : Nat) : String := String.join (List.replicate n s)

/-- Truthiness of the `indent` argument (`indent ? ... : ...`). -/
def indentTruthy : Option Int → Bool
  | some n => n ≠ 0
  | none => false

/-- `indent ? " ".repeat(indent) : ""`; `repeat` of a negative count throws a
`RangeError`. -/
def indentStr : Option Int → Except String String
  | some n =>
    if n = 0 then .ok ""
    else if n > 0 then .ok (strRepeat " " n.toNat)
    else .error "RangeError: Invalid count value"
  | none => .ok ""

mutual

/-- `toJSON` (runtime.ts:1534-1569).  `indent` is truthy exactly when it is a
non-zero number; a negative truthy indent makes `" ".repeat` throw a
`RangeError`.  Note the dispatch is on the exact `type` tag: `TupleValue` and
`KeywordArgumentsValue` hit the default branch and fail. -/
def toJSON (input : Value) (indent : Option Int) (depth : Nat) : Except String String :=
  match input with
  | .null => .ok "null"
  | .undef => .ok "null"
  | .int n => .ok (toString n)
  | .float q => .ok (jsNumberToString q)
  | .str s => .ok ("\"" ++ jsonEscape s ++ "\"")
  | .bool b => .ok (jsBoolStr b)
  | .array xs =>
    match indentStr indent with
    | .error m => .error m
    | .ok iv =>
      let basePadding := "\n" ++ strRepeat iv depth
      let childrenPadding := basePadding ++ iv
      match toJSONList xs indent (depth + 1) with
      | .error m => .error m
      | .ok core =>
        if indentTruthy indent then
          .ok ("[" ++ childrenPadding ++
            String.intercalate ("," ++ childrenPadding) core ++ basePadding ++ "]")
        else .ok ("[" ++ String.intercalate ", " core ++ "]")
  | .obj entries =>
    match indentStr indent with
    | .error m => .error m
    | .ok iv =>
      let basePadding := "\n" ++ strRepeat iv depth
      let childrenPadding := basePadding ++ iv
      match toJSONEntries entries indent (depth + 1) with
      | .error m => .error m
      | .ok core =>
        if indentTruthy indent then
          .ok ("\x7b" ++
            String.intercalate ","
              (core.map fun kv => childrenPadding ++ kv) ++ basePadding ++ "\x7d")
        else .ok ("\x7b" ++ String.intercalate ", " core ++ "\x7d")
  | v => .error ("Cannot convert to JSON: " ++ v.tag)

def toJSONList (xs : List Value) (indent : Option Int) (depth : Nat) :
    Except String (List String) :=
  match xs with
  | [] => .ok []
  | v :: rest =>
    match toJSON v indent depth with
    | .error m => .error m
    | .ok s =>
      match toJSONList rest indent depth with
      | .error m => .error m
      | .ok ss => .ok (s :: ss)

def toJSONEntries (entries : List (String × Value)) (indent : Option Int)
    (depth : Nat) : Except String (List String) :=
  match entries with
  | [] => .ok []
  | (k, v) :: rest =>
    match toJSON v indent depth with
    | .error m => .error m
    | .ok s =>
      match toJSONEntries rest indent depth with
      | .error m => .error m
      | .ok ss => .ok (("\"" ++ k ++ "\": " ++ s) :: ss)

end

/-! ## Binary operators after `and`/`or` (runtime.ts:560-656).

`and`/`or` short-circuit in `evalNode` before the right operand is evaluated;
everything from the `==`/`!=` switch down is this pure function on the two
evaluated operands. -/

/-- Is the operand an `IntegerValue` or `FloatValue`? -/
def Value.isNum : Value → Bool
  | .int _ | .float _ => true
  | _ => false

/-- JavaScript `hay.includes(sub)`: substring containment. -/
def jsIncludes (hay sub : String) : Bool :=
  hay.toList.tails.any fun t => sub.toList.isPrefixOf t

/-- Numeric payload as a rational. -/
def Value.ratVal : Value → Rat
  | .int n => (n : Rat)
  | .float q => q
  | _ => 0

/-- `evaluateBinaryExpression` from the equality switch down
(runtime.ts:562-655): loose equality, the `Undefined`/`Null` guards, `~`,
numeric arithmetic and comparison, array concatenation and membership, string
concatenation and containment, object key containment, otherwise the
`Unknown operator` error.  A switch with no matching case falls through to the
string-concatenation checks, exactly as in the source's `if`/`else if`
chain. -/
def binop (op : String) (l r : Value) : Except String Value :=
  if op = "==" then .ok (.bool (jsLooseEq l r))
  else if op = "!=" then .ok (.bool (¬jsLooseEq l r))
  else if l.tag = "UndefinedValue" ∨ r.tag = "UndefinedValue" then
    if r.tag = "UndefinedValue" ∧ (op = "in" ∨ op = "not in") then
      .ok (.bool (op = "not in"))
    else .error ("Cannot perform operation " ++ op ++ " on undefined values")
  else if l.tag = "NullValue" ∨ r.tag = "NullValue" then
    .error "Cannot perform operation on null values"
  else if op = "~" then .ok (.str (payloadToString l ++ payloadToString r))
  else
    let post : Except String Value :=
      if (l.tag = "StringValue" ∨ r.tag = "StringValue") ∧ op = "+" then
        .ok (.str (payloadToString l ++ payloadToString r))
      else
        match l, r with
        | .str a, .str b =>
          if op = "in" then .ok (.bool (jsIncludes b a))
          else if op = "not in" then .ok (.bool (¬jsIncludes b a))
          else .error ("Unknown operator \"" ++ op ++ "\" between " ++ l.tag ++
            " and " ++ r.tag)
        | .str a, rr =>
          if rr.isObjectLike ∧ op = "in" then
            .ok (.bool ((rr.objEntries.lookup a).isSome))
          else if rr.isObjectLike ∧ op = "not in" then
            .ok (.bool (¬(rr.objEntries.lookup a).isSome))
          else .error ("Unknown operator \"" ++ op ++ "\" between " ++ l.tag ++
            " and " ++ r.tag)
        | _, _ =>
          .error ("Unknown operator \"" ++ op ++ "\" between " ++ l.tag ++
            " and " ++ r.tag)
    if l.isNum ∧ r.isNum then
      match l, r with
      | .int x, .int y =>
        if op = "+" then .ok (.int (x + y))
        else if op = "-" then .ok (.int (x - y))
        else if op = "*" then .ok (.int (x * y))
        else if op = "/" then .ok (.float ((x : Rat) / (y : Rat)))
        else if op = "%" then .ok (.int (x.tmod y))
        else if op = "<" then .ok (.bool (x < y))
        else if op = ">" then .ok (.bool (x > y))
        else if op = ">=" then .ok (.bool (x ≥ y))
        else if op = "<=" then .ok (.bool (x ≤ y))
        else post
      | _, _ =>
        let a := l.ratVal
        let b := r.ratVal
        if op = "+" then .ok (.float (a + b))
        else if op = "-" then .ok (.float (a - b))
        else if op = "*" then .ok (.float (a * b))
        else if op = "/" then .ok (.float (a / b))
        else if op = "%" then .ok (.float (ratRem a b))
        else if op = "<" then .ok (.bool (a < b))
        else if op = ">" then .ok (.bool (a > b))
        else if op = ">=" then .ok (.bool (a ≥ b))
        else if op = "<=" then .ok (.bool (a ≤ b))
        else post
    else if l.isArrayLike ∧ r.isArrayLike then
      if op = "+" then .ok (.array (l.elems ++ r.elems)) else post
    else if r.isArrayLike then
      let member := r.elems.any fun x => jsStrictEq x l
      if op = "in" then .ok (.bool member)
      else if op = "not in" then .ok (.bool (¬member))
      else post
    else post

/-! ## Per-type builtin members (runtime.ts:105-265, 293-306, 333). -/

/-- The `builtins` table lookup used by member access: a direct value for the
`length` attributes, a bound method otherwise, `none` for everything else
(the base class has an empty table, so e.g. member access on `Null` or
`Undefined` finds nothing and yields `Undefined`). -/
def getBuiltinMember (recv : Value) (name : String) : Option Value :=
  match recv with
  | .str s =>
    if name = "length" then some (.int (s.length : Int))
    else if name = "upper" ∨ name = "lower" ∨ name = "strip" ∨ name = "title" ∨
        name = "capitalize" ∨ name = "rstrip" ∨ name = "lstrip" ∨
        name = "startswith" ∨ name = "endswith" ∨ name = "split" ∨
        name = "replace" then
      some (.funcBuiltin recv name)
    else none
  | .array xs =>
    if name = "length" then some (.int (xs.length : Int)) else none
  | .tuple xs =>
    if name = "length" then some (.int (xs.length : Int)) else none
  | .obj _ | .kwargsV _ =>
    if name = "get" ∨ name = "items" ∨ name = "keys" ∨ name = "values" then
      some (.funcBuiltin recv name)
    else none
  | _ => none

/-- Scan for `startswith`/`endswith` with a tuple pattern (runtime.ts:158-167,
181-190): throw on the first non-string element encountered, return true on
the first match. -/
def affixScan (check : String → Bool) (which : String) :
    List Value → Except String Bool
  | [] => .ok false
  | .str p :: rest => if check p then .ok true else affixScan check which rest
  | _ :: _ => .error (which ++ "() tuple elements must be strings")

/-- Invocation of a bound builtin method (`callBuiltin recv name args` runs the
closure the source stores in `recv`'s `builtins` map under `name`). -/
def callBuiltin (recv : Value) (name : String) (args : List Value) :
    Except String Value :=
  match recv with
  | .str s =>
    match name with
    | "upper" => .ok (.str (jsToUpper s))
    | "lower" => .ok (.str (jsToLower s))
    | "strip" => .ok (.str (jsTrim s))
    | "title" => .ok (.str (titleCase s))
    | "capitalize" =>
      .ok (.str (match s.toList with
        | [] => ""
        | c :: rest => String.mk (c.toUpper :: rest)))
    | "rstrip" => .ok (.str (jsTrimEnd s))
    | "lstrip" => .ok (.str (jsTrimStart s))
    | "startswith" =>
      match (args.get? 0 : Option Value) with
      | none => .error "startswith() requires at least one argument"
      | some (Value.str p) => .ok (.bool (p.isPrefixOf s))
      | some pat =>
        if pat.isArrayLike then do
          let b ← affixScan (fun p => p.isPrefixOf s) "startswith" pat.elems
          .ok (.bool b)
        else .error "startswith() argument must be a string or tuple of strings"
    | "endswith" =>
      match (args.get? 0 : Option Value) with
      | none => .error "endswith() requires at least one argument"
      | some (Value.str p) => .ok (.bool (p.toList.isSuffixOf s.toList))
      | some pat =>
        if pat.isArrayLike then do
          let b ← affixScan (fun p => p.toList.isSuffixOf s.toList) "endswith" pat.elems
          .ok (.bool b)
        else .error "endswith() argument must be a string or tuple of strings"
    | "split" => splitBuiltin s args
    | "replace" =>
      if args.length < 2 then .error "replace() requires at least two arguments"
      else
        match (args.get? 0 : Option Value), (args.get? 1 : Option Value) with
        | some (Value.str oldS), some (Value.str newS) =>
          let count : Value :=
            match (args.get? 2 : Option Value) with
            | some a =>
              if a.tag = "KeywordArgumentsValue" then
                (a.objEntries.lookup "count").getD .null
              else a
            | none => .null
          match count with
          | .int c => .ok (.str (replaceStr s oldS newS (some c)))
          | .null => .ok (.str (replaceStr s oldS newS none))
          | _ => .error "replace() count argument must be a number or null"
        | _, _ => .error "replace() arguments must be strings"
    | _ => .error ("unknown builtin: " ++ name)
  | .obj m | .kwargsV m =>
    match name with
    | "get" =>
      match (args.get? 0 : Option Value) with
      | none => .error "Object key must be a string: got UndefinedValue"
      | some (Value.str k) => .ok (((m.lookup k).orElse fun _ => args.get? 1).getD .null)
      | some other => .error ("Object key must be a string: got " ++ other.tag)
    | "items" => .ok (.array (m.map fun kv => .array [.str kv.1, kv.2]))
    | "keys" => .ok (.array (m.map fun kv => .str kv.1))
    | "values" => .ok (.array (m.map fun kv => kv.2))
    | _ => .error ("unknown builtin: " ++ name)
  | _ => .error ("unknown builtin: " ++ name)

/-! ## Pure filter helpers (runtime.ts:690-1004). -/

/-- A payload's rendering inside `Array.prototype.join`: `null` and
`undefined` payloads render empty, everything else as `String(payload)`. -/
def payloadJoinPiece (v : Value) : String :=
  match v with
  | .null => ""
  | .undef => ""
  | v => payloadToString v

/-- `operand.value.map((x) => x.value).join(sep)` (runtime.ts:740, 871). -/
def joinPayloads (xs : List Value) (sep : String) : String :=
  String.intercalate sep (xs.map payloadJoinPiece)

/-- Strict-less comparison of the `sort` comparator (runtime.ts:724-737):
different `type` tags throw, numbers compare numerically, strings by
`localeCompare` (modelled as code-point order), anything else throws. -/
def cmpLT (a b : Value) : Except String Bool :=
  if a.tag ≠ b.tag then
    .error ("Cannot compare different types: " ++ a.tag ++ " and " ++ b.tag)
  else
    match a, b with
    | .int x, .int y => .ok (x < y)
    | .float x, .float y => .ok (x < y)
    | .str x, .str y => .ok (x < y)
    | _, _ => .error ("Cannot compare type: " ++ a.tag)

/-- Stable insertion into a sorted prefix (earlier elements stay before equal
later ones, as JavaScript's stable `sort`). -/
def sortInsert (v : Value) : List Value → Except String (List Value)
  | [] => .ok [v]
  | w :: rest => do
    let lt ← cmpLT w v
    if lt then do
      let tail ← sortInsert v rest
      .ok (w :: tail)
    else .ok (v :: w :: rest)

/-- The `sort` filter's comparison sort (order of comparator invocations — and
hence which pair surfaces in a mixed-type error message — is
engine-dependent in the host; the sorted result on comparable inputs is the
same). -/
def sortValues : List Value → Except String (List Value)
  | [] => .ok []
  | [v] => .ok [v]
  | v :: rest => do
    let sorted ← sortValues rest
    sortInsert v sorted

/-- `unique` (runtime.ts:743-753): order-preserving dedup by payload (`Set`
membership, modelled by `jsStrictEq`). -/
def uniqueAux : List Value → List Value → List Value
  | [], _ => []
  | v :: rest, seen =>
    if seen.any fun w => jsStrictEq w v then uniqueAux rest seen
    else v :: uniqueAux rest (v :: seen)

def uniqueValues (xs : List Value) : List Value := uniqueAux xs []

/-- The `default` filter core in call form (runtime.ts:889-900): the default
value is `args[0] ?? ""`, the flag is `args[1] ?? kwargs.boolean ?? false` and
must be a boolean; return the default when the receiver is `Undefined` or the
flag is set and the receiver is falsy, else the receiver. -/
def defaultFilterCore (operand : Value) (args : List Value)
    (kwargs : List (String × Value)) : Except String Value :=
  let defaultValue := (args[0]?).getD (.str "")
  let booleanValue := (args[1]?).getD ((kwargs.lookup "boolean").getD (.bool false))
  match booleanValue with
  | .bool b =>
    if operand.tag = "UndefinedValue" ∨ (b ∧ ¬operand.truthy) then .ok defaultValue
    else .ok operand
  | _ => .error "`default` filter flag must be a boolean"

/-! ## In-place effects of the `reverse` / `sort` filters (runtime.ts:721,
722-738).

The main evaluator treats arrays as values; the aliasing effect of the two
filters on the operand's own buffer is captured here.  `reverse` evaluates
`new ArrayValue(operand.value.reverse())`, and JavaScript
`Array.prototype.reverse` reverses the receiver's buffer **in place** and
returns that same buffer; the result therefore shares the operand's
now-reversed buffer.  Each definition returns the pair
(result elements, operand buffer contents after the call). -/

def reverseFilterEffect (xs : List Value) : List Value × List Value :=
  (xs.reverse, xs.reverse)

/-- `sort` (runtime.ts:722-738) likewise sorts the operand's buffer in place
and wraps the same buffer. -/
def sortFilterEffect (xs : List Value) : Except String (List Value × List Value) := do
  let s ← sortValues xs
  .ok (s, s)

/-- The `type` strings of the AST node kinds (contract with the parser), as
used in dispatch and error messages. -/
def Node.kindName : Node → String
  | .program _ => "Program"
  | .setStmt _ _ _ => "Set"
  | .ifStmt _ _ _ => "If"
  | .forStmt _ _ _ _ => "For"
  | .macroDef _ _ _ => "Macro"
  | .callStmt _ _ _ _ => "CallStatement"
  | .breakStmt => "Break"
  | .continueStmt => "Continue"
  | .commentStmt => "Comment"
  | .intLit _ => "IntegerLiteral"
  | .floatLit _ => "FloatLiteral"
  | .strLit _ => "StringLiteral"
  | .arrayLit _ => "ArrayLiteral"
  | .tupleLit _ => "TupleLiteral"
  | .objectLit _ => "ObjectLiteral"
  | .ident _ => "Identifier"
  | .callEx _ _ => "CallExpression"
  | .memberEx _ _ _ => "MemberExpression"
  | .unaryEx _ _ => "UnaryExpression"
  | .binaryEx _ _ _ => "BinaryExpression"
  | .filterEx _ _ => "FilterExpression"
  | .filterStmt _ _ => "FilterStatement"
  | .testEx _ _ _ => "TestExpression"
  | .selectEx _ _ => "SelectExpression"
  | .ternaryEx _ _ _ => "Ternary"
  | .sliceEx _ _ _ => "SliceExpression"
  | .kwargEx _ _ => "KeywordArgumentExpression"
  | .spreadEx _ => "SpreadExpression"

/-- Membership in the test registry (runtime.ts:402-450), used by
`selectattr`/`rejectattr` to reject unknown tests before filtering. -/
def testKnown (name : String) : Bool :=
  ["boolean", "callable", "odd", "even", "false", "true", "none", "string",
   "number", "integer", "iterable", "mapping", "lower", "upper", "defined",
   "undefined", "equalto", "eq"].any fun n => n = name

/-- JavaScript `Array.prototype.at` / `String.prototype.at`: negative indices
count from the end; out of range is `undefined`. -/
def jsAt {α : Type} (xs : List α) (i : Int) : Option α :=
  if i < 0 then
    let j := (xs.length : Int) + i
    if j < 0 then none else xs[j.toNat]?
  else xs[i.toNat]?

/-- Split a string at every newline (JavaScript `s.split("\n")`). -/
def splitNewlines (s : String) : List String :=
  (jsSplitSep s.toList '\n' []).map String.mk

/-- The identifier-form `indent` filter body (runtime.ts:776-785): four-space
indent for every line except the first and empty ones. -/
def indentDefaultLines : List String → Nat → List String
  | [], _ => []
  | l :: rest, i =>
    (if i = 0 ∨ l.length = 0 then l else "    " ++ l) :: indentDefaultLines rest (i + 1)

/-- The call-form `indent` filter body (runtime.ts:982-986). -/
def indentLines (pad : String) (first blank : Bool) : List String → Nat → List String
  | [], _ => []
  | l :: rest, i =>
    (if (¬first ∧ i = 0) ∨ (¬blank ∧ l.length = 0) then l else pad ++ l) ::
      indentLines pad first blank rest (i + 1)

/-- The identifier surface form of `applyFilter` (runtime.ts:703-838): after
the universal `tojson`, dispatch is strictly by receiver type, and each
receiver type supports only its listed filter names — every other name (on
every receiver type) throws.  In particular no branch of this form handles
`default`. -/
def applyFilterIdent (operand : Value) (fname : String) : Except String Value :=
  if fname = "tojson" then do
    let s ← toJSON operand none 0
    .ok (.str s)
  else if operand.isArrayLike then
    match fname with
    | "list" => .ok operand
    | "first" =>
      match operand.elems.head? with
      | some v => .ok v
      | none => .error "TypeError: first of empty array is undefined"
    | "last" =>
      match operand.elems.getLast? with
      | some v => .ok v
      | none => .error "TypeError: last of empty array is undefined"
    | "length" => .ok (.int (operand.elems.length : Int))
    | "reverse" => .ok (.array operand.elems.reverse)
    | "sort" => do
      let s ← sortValues operand.elems
      .ok (.array s)
    | "join" => .ok (.str (joinPayloads operand.elems ""))
    | "string" => do
      let s ← toJSON operand none 0
      .ok (.str s)
    | "unique" => .ok (.array (uniqueValues operand.elems))
    | _ => .error ("Unknown ArrayValue filter: " ++ fname)
  else
    match operand with
    | .str s =>
      match fname with
      | "length" => .ok (.int (s.length : Int))
      | "upper" => callBuiltin operand "upper" []
      | "lower" => callBuiltin operand "lower" []
      | "title" => callBuiltin operand "title" []
      | "capitalize" => callBuiltin operand "capitalize" []
      | "trim" => .ok (.str (jsTrim s))
      | "indent" =>
        .ok (.str (String.intercalate "\n" (indentDefaultLines (splitNewlines s) 0)))
      | "join" => .ok operand
      | "string" => .ok operand
      | "int" =>
        match jsParseInt s with
        | some v => .ok (.int v)
        | none => .ok (.int 0)
      | "float" =>
        match jsParseFloat s with
        | some v => .ok (.float v)
        | none => .ok (.float 0)
      | _ => .error ("Unknown StringValue filter: " ++ fname)
    | .int n =>
      match fname with
      | "abs" => .ok (.int (if n < 0 then -n else n))
      | "int" => .ok (.int n)
      | "float" => .ok (.float (n : Rat))
      | _ => .error ("Unknown NumericValue filter: " ++ fname)
    | .float q =>
      match fname with
      | "abs" => .ok (.float (if q < 0 then -q else q))
      | "int" => .ok (.int q.floor)
      | "float" => .ok (.float q)
      | _ => .error ("Unknown NumericValue filter: " ++ fname)
    | .obj m =>
      match fname with
      | "items" => .ok (.array (m.map fun kv => .array [.str kv.1, kv.2]))
      | "length" => .ok (.int (m.length : Int))
      | _ => .error ("Unknown ObjectValue filter: " ++ fname)
    | .kwargsV m =>
      match fname with
      | "items" => .ok (.array (m.map fun kv => .array [.str kv.1, kv.2]))
      | "length" => .ok (.int (m.length : Int))
      | _ => .error ("Unknown ObjectValue filter: " ++ fname)
    | .bool b =>
      match fname with
      | "bool" => .ok (.bool b)
      | "int" => .ok (.int (cond b 1 0))
      | "float" => .ok (.float (cond b 1 0))
      | "string" => .ok (.str (jsBoolStr b))
      | _ => .error ("Unknown BooleanValue filter: " ++ fname)
    | _ => .error ("Cannot apply filter \"" ++ fname ++ "\" to type: " ++ operand.tag)

/-- Binding of a loop variable for one item (the `scopeUpdateFunction` closure,
runtime.ts:1248-1273): an identifier binds directly; a tuple pattern binds each
element, rejecting non-identifier components when it runs. -/
def bindTupleIdents (ps : List Node) (vs : List Value) (frame : Nat) (st : Store) :
    Except String Store :=
  match ps, vs with
  | [], _ => .ok st
  | p :: prest, vs =>
    match p with
    | .ident x =>
      match vs with
      | v :: vrest => bindTupleIdents prest vrest frame (setVar st frame x v)
      | [] => bindTupleIdents prest [] frame (setVar st frame x .undef)
    | _ => .error ("Cannot unpack non-identifier type: " ++ p.kindName)

/-- Run the loop-variable update against a frame. -/
def bindLoopvar (loopvar : Node) (current : Value) (frame : Nat) (st : Store) :
    Except String Store :=
  match loopvar with
  | .ident x => .ok (setVar st frame x current)
  | .tupleLit ps => bindTupleIdents ps current.elems frame st
  | _ => .error ("Invalid loop variable(s): " ++ loopvar.kindName)

/-- Parameter binding of the `caller` closure (runtime.ts:1388-1394): each
declared parameter must be an identifier and receives
`callerArgs[i] ?? Undefined`. -/
def bindCallerParams (ps : List Node) (args : List Value) (i : Nat) (frame : Nat)
    (st : Store) : Except String Store :=
  match ps with
  | [] => .ok st
  | p :: rest =>
    match p with
    | .ident x =>
      bindCallerParams rest args (i + 1) frame
        (setVar st frame x ((args.get? i).getD .undef))
    | _ => .error ("Caller parameter must be an identifier, got " ++ p.kindName)

/-- Destructuring `Set` onto a tuple of identifiers (runtime.ts:1190-1196). -/
def setTupleIdents (ps : List Node) (vs : List Value) (env : Nat) (st : Store) :
    Except String Store :=
  match ps, vs with
  | [], _ => .ok st
  | p :: prest, vs =>
    match p with
    | .ident x =>
      match vs with
      | v :: vrest => setTupleIdents prest vrest env (setVar st env x v)
      | [] => setTupleIdents prest [] env (setVar st env x .undef)
    | _ => .error ("Cannot unpack to non-identifier in set: " ++ p.kindName)

/-- The `loop` object bound at iteration `i` of a `for` loop over the filtered
item list `items` (runtime.ts:1294-1304). -/
def loopObject (i : Nat) (items : List Value) : Value :=
  .obj
    [("index", .int ((i : Int) + 1)),
     ("index0", .int (i : Int)),
     ("revindex", .int ((items.length : Int) - (i : Int))),
     ("revindex0", .int ((items.length : Int) - (i : Int) - 1)),
     ("first", .bool (decide (i = 0))),
     ("last", .bool (decide ((i : Int) = (items.length : Int) - 1))),
     ("length", .int (items.length : Int)),
     ("previtem", if i > 0 then (items[i - 1]?).getD .undef else .undef),
     ("nextitem", if i + 1 < items.length then (items[i + 1]?).getD .undef else .undef)]

/-- The member-access dispatch on the evaluated object and property
(runtime.ts:1149-1173): objects consult stored data then builtins and require a
string key; arrays and strings take integer indices (negative counts from the
end) or builtin names; every other receiver consults its (empty) builtins
table; a missing member yields `Undefined`, never an error.  (For an
out-of-range string index the source wraps the host `undefined` in a
`StringValue`; modelled as `Undefined` — no claim observes the difference.) -/
def memberLookup (object property : Value) : Except String Value :=
  if object.isObjectLike then
    match property with
    | .str k =>
      .ok (((object.objEntries.lookup k).orElse fun _ =>
        getBuiltinMember object k).getD .undef)
    | _ => .error ("Cannot access property with non-string: got " ++ property.tag)
  else if object.isArrayLike ∨ object.tag = "StringValue" then
    match property with
    | .int idx =>
      match object with
      | .str s =>
        match jsAt s.toList idx with
        | some c => .ok (.str (String.mk [c]))
        | none => .ok .undef
      | _ => .ok ((jsAt object.elems idx).getD .undef)
    | .str k => .ok ((getBuiltinMember object k).getD .undef)
    | _ =>
      .error ("Cannot access property with non-string/non-number: got " ++ property.tag)
  else
    match property with
    | .str k => .ok ((getBuiltinMember object k).getD .undef)
    | _ => .error ("Cannot access property with non-string: got " ++ property.tag)

/-- The filtering loop of `selectattr`/`rejectattr` (runtime.ts:930-935): a
missing attribute counts as a failed test; otherwise the chosen test (or
truthiness when no test is named) decides, negated for `rejectattr`. -/
def selattrLoop (select : Bool) (attr : String) (tn : Option String)
    (extra : Option Value) : List Value → Except String (List Value)
  | [] => .ok []
  | item :: rest => do
    let result ←
      match item.objEntries.lookup attr with
      | none => pure false
      | some av =>
        match tn with
        | some t => applyTest t av extra
        | none => pure av.truthy
    let tail ← selattrLoop select attr tn extra rest
    if (if select then result else ¬result) then .ok (item :: tail) else .ok tail

/-- The mapping loop of the `map` filter (runtime.ts:950-955). -/
def mapAttrLoop (attr : String) (dflt : Option Value) :
    List Value → Except String (List Value)
  | [] => .ok []
  | item :: rest =>
    if ¬item.isObjectLike then .error "items in map must be an object"
    else do
      let v := ((item.objEntries.lookup attr).orElse fun _ => dflt).getD .undef
      let tail ← mapAttrLoop attr dflt rest
      .ok (v :: tail)

/-- Separation of a trailing `KeywordArgumentsValue` from a macro's argument
list (runtime.ts:1350-1353). -/
def splitKwargsArg (args : List Value) :
    List Value × Option (List (String × Value)) :=
  match args.getLast? with
  | some last =>
    if last.tag = "KeywordArgumentsValue" then (args.dropLast, some last.objEntries)
    else (args, none)
  | none => (args, none)

/-! ## The evaluator (runtime.ts:531-1489).

All functions are indexed by a fuel that strictly decreases at every call, so
recursion is structural and closed evaluations reduce; exhausted fuel is an
error outcome (a failure, like any other thrown error).  `env` is the index of
the current `Environment` frame. -/

set_option maxHeartbeats 2000000

mutual

/-- `Interpreter.evaluate` (runtime.ts:1415-1488): dispatch on the node kind;
node kinds absent from the switch hit the `Unknown node type` default. -/
def evalNode : Nat → Node → Nat → Store → Res (Value × Store)
  | 0, _, _, _ => .err "out of fuel"
  | fuel + 1, node, env, st =>
    match node with
    | .program body => do
      let (s, st') ← evalBlock fuel body env st
      pure (.str s, st')
    | .setStmt assignee value body => evalSetStmt fuel assignee value body env st
    | .ifStmt test body alternate => do
      let (tv, st1) ← evalNode fuel test env st
      let (s, st2) ← evalBlock fuel (if tv.truthy then body else alternate) env st1
      pure (.str s, st2)
    | .forStmt loopvar iterable body defaultBlock =>
      evalForStmt fuel loopvar iterable body defaultBlock env st
    | .macroDef name params body =>
      pure (.null, setVar st env name (.funcMacro params body))
    | .callStmt callee cargs callerArgs body =>
      evalCallStmt fuel callee cargs callerArgs body env st
    | .breakStmt => .brk st
    | .continueStmt => .cont st
    | .commentStmt => pure (.null, st)
    | .intLit n => pure (.int n, st)
    | .floatLit q => pure (.float q, st)
    | .strLit s => pure (.str s, st)
    | .arrayLit xs => do
      let (vs, st') ← evalNodeList fuel xs env st
      pure (.array vs, st')
    | .tupleLit xs => do
      let (vs, st') ← evalNodeList fuel xs env st
      pure (.tuple vs, st')
    | .objectLit kvs => do
      let (m, st') ← evalKVPairs fuel kvs env st []
      pure (.obj m, st')
    | .ident name => pure (lookupVariable st env name, st)
    | .callEx callee args => do
      let ((pos, kw), st1) ← evalArgs fuel args env st [] []
      let pos := if kw.isEmpty then pos else pos ++ [.kwargsV kw]
      let (fn, st2) ← evalNode fuel callee env st1
      if fn.isFunc then applyFuncV fuel fn pos env st2
      else .err ("Cannot call something that is not a function: got " ++ fn.tag)
    | .memberEx objNode computed propNode =>
      evalMemberEx fuel objNode computed propNode env st
    | .unaryEx op arg => do
      let (v, st1) ← evalNode fuel arg env st
      if op = "not" then pure (.bool (¬v.payloadTruthy), st1)
      else .err ("Unknown operator: " ++ op)
    | .binaryEx op left right =>
      if op = "and" then do
        let (l, st1) ← evalNode fuel left env st
        if l.truthy then evalNode fuel right env st1 else pure (l, st1)
      else if op = "or" then do
        let (l, st1) ← evalNode fuel left env st
        if l.truthy then pure (l, st1) else evalNode fuel right env st1
      else do
        let (l, st1) ← evalNode fuel left env st
        let (r, st2) ← evalNode fuel right env st1
        let v ← liftE (binop op l r)
        pure (v, st2)
    | .filterEx operand filterNode => do
      let (v, st1) ← evalNode fuel operand env st
      applyFilterE fuel v filterNode env st1
    | .filterStmt filterNode body => do
      let (s, st1) ← evalBlock fuel body env st
      applyFilterE fuel (.str s) filterNode env st1
    | .testEx operand testName negate => do
      let (v, st1) ← evalNode fuel operand env st
      let b ← liftE (applyTest testName v none)
      pure (.bool (if negate then ¬b else b), st1)
    | .selectEx lhs test => do
      let (p, st1) ← evalNode fuel test env st
      if p.truthy then evalNode fuel lhs env st1 else pure (.undef, st1)
    | .ternaryEx c t f => do
      let (cv, st1) ← evalNode fuel c env st
      if cv.truthy then evalNode fuel t env st1 else evalNode fuel f env st1
    | .sliceEx _ _ _ => .err ("Unknown node type: " ++ node.kindName)
    | .kwargEx _ _ => .err ("Unknown node type: " ++ node.kindName)
    | .spreadEx _ => .err ("Unknown node type: " ++ node.kindName)

termination_by structural fuel _ _ _ => fuel

/-- `Interpreter.evaluateBlock` (runtime.ts:1068-1082): render each statement
in turn, skipping `Null` and `Undefined` results, and accumulate the
stringifications. -/
def evalBlock : Nat → List Node → Nat → Store → Res (String × Store)
  | 0, _, _, _ => .err "out of fuel"
  | fuel + 1, stmts, env, st =>
    match stmts with
    | [] => pure ("", st)
    | stmt :: rest => do
      let (v, st1) ← evalNode fuel stmt env st
      let piece :=
        if v.tag = "NullValue" ∨ v.tag = "UndefinedValue" then "" else valueToString v
      let (s, st2) ← evalBlock fuel rest env st1
      pure (piece ++ s, st2)

termination_by structural fuel _ _ _ => fuel

/-- Evaluate a list of expressions left to right. -/
def evalNodeList : Nat → List Node → Nat → Store → Res (List Value × Store)
  | 0, _, _, _ => .err "out of fuel"
  | fuel + 1, nodes, env, st =>
    match nodes with
    | [] => pure ([], st)
    | n :: rest => do
      let (v, st1) ← evalNode fuel n env st
      let (vs, st2) ← evalNodeList fuel rest env st1
      pure (v :: vs, st2)

termination_by structural fuel _ _ _ => fuel

/-- Evaluate an object literal's key/value pairs (runtime.ts:1451-1461). -/
def evalKVPairs : Nat → List (Node × Node) → Nat → Store →
    List (String × Value) → Res (List (String × Value) × Store)
  | 0, _, _, _, _ => .err "out of fuel"
  | fuel + 1, kvs, env, st, acc =>
    match kvs with
    | [] => pure (acc, st)
    | (k, v) :: rest => do
      let (kv, st1) ← evalNode fuel k env st
      match kv with
      | .str ks => do
        let (vv, st2) ← evalNode fuel v env st1
        evalKVPairs fuel rest env st2 (setEntry acc ks vv)
      | _ => .err ("Object keys must be strings: got " ++ kv.tag)

termination_by structural fuel _ _ _ _ => fuel

/-- `Interpreter.evaluateArguments` (runtime.ts:658-688): spread arguments
inline an array, keyword arguments populate the kwargs map, and a positional
argument after any keyword argument is an error (checked before it is
evaluated). -/
def evalArgs : Nat → List Node → Nat → Store → List Value →
    List (String × Value) → Res ((List Value × List (String × Value)) × Store)
  | 0, _, _, _, _, _ => .err "out of fuel"
  | fuel + 1, nodes, env, st, pos, kw =>
    match nodes with
    | [] => pure ((pos, kw), st)
    | n :: rest =>
      match n with
      | .spreadEx a => do
        let (v, st1) ← evalNode fuel a env st
        if v.isArrayLike then evalArgs fuel rest env st1 (pos ++ v.elems) kw
        else .err ("Cannot unpack non-iterable type: " ++ v.tag)
      | .kwargEx key vnode => do
        let (v, st1) ← evalNode fuel vnode env st
        evalArgs fuel rest env st1 pos (setEntry kw key v)
      | _ =>
        if kw.isEmpty then do
          let (v, st1) ← evalNode fuel n env st
          evalArgs fuel rest env st1 (pos ++ [v]) kw
        else .err "Positional arguments must come before keyword arguments"

termination_by structural fuel _ _ _ _ _ => fuel

/-- `Interpreter.evaluateSet` (runtime.ts:1176-1213).  The right-hand side is
the `value` expression or, absent that, the rendered body block.  Member
assignment mutates the target object's map in place in the source; in this
value model the updated object is written back when the object expression is an
identifier (the observable effect for a single reference), and dropped
otherwise. -/
def evalSetStmt : Nat → Node → Option Node → List Node → Nat → Store →
    Res (Value × Store)
  | 0, _, _, _, _, _ => .err "out of fuel"
  | fuel + 1, assignee, value?, body, env, st => do
    let (rhs, st1) ←
      match value? with
      | some vnode => evalNode fuel vnode env st
      | none => do
        let (s, st') ← evalBlock fuel body env st
        pure (Value.str s, st')
    match assignee with
    | .ident name => pure (.null, setVar st1 env name rhs)
    | .tupleLit ps =>
      if ¬rhs.isArrayLike then
        .err ("Cannot unpack non-iterable type in set: " ++ rhs.tag)
      else
        let arr := rhs.elems
        if arr.length ≠ ps.length then
          .err ("Too " ++ (if ps.length > arr.length then "few" else "many") ++
            " items to unpack in set")
        else do
          let st2 ← liftE (setTupleIdents ps arr env st1)
          pure (.null, st2)
    | .memberEx objNode _ propNode => do
      let (objV, st2) ← evalNode fuel objNode env st1
      if ¬objV.isObjectLike then .err "Cannot assign to member of non-object"
      else
        match propNode with
        | .ident propName =>
          let newObj : Value :=
            match objV with
            | .obj m => .obj (setEntry m propName rhs)
            | .kwargsV m => .kwargsV (setEntry m propName rhs)
            | v => v
          let st3 :=
            match objNode with
            | .ident objName =>
              match resolve st2 env objName with
              | some fid =>
                updateFrame st2 fid fun fr => ⟨setEntry fr.vars objName newObj, fr.parent⟩
              | none => st2
            | _ => st2
          pure (.null, st3)
        | _ => .err "Cannot assign to member with non-identifier property"
    | _ => .err ("Invalid LHS inside assignment expression: " ++ assignee.kindName)

termination_by structural fuel _ _ _ _ _ => fuel

/-- `Interpreter.evaluateMemberExpression` (runtime.ts:1135-1174).  The
non-computed property is the identifier's name (parser contract); a computed
slice property goes through the slice evaluator. -/
def evalMemberEx : Nat → Node → Bool → Node → Nat → Store → Res (Value × Store)
  | 0, _, _, _, _, _ => .err "out of fuel"
  | fuel + 1, objNode, computed, propNode, env, st => do
    let (object, st1) ← evalNode fuel objNode env st
    if computed then
      match propNode with
      | .sliceEx start stop step => evalSliceEx fuel object start stop step env st1
      | _ => do
        let (property, st2) ← evalNode fuel propNode env st1
        let v ← liftE (memberLookup object property)
        pure (v, st2)
    else
      match propNode with
      | .ident s => do
        let v ← liftE (memberLookup object (.str s))
        pure (v, st1)
      | _ => .err ("Cannot access property with non-string: got " ++ propNode.kindName)

termination_by structural fuel _ _ _ _ _ => fuel

/-- `Interpreter.evaluateSliceExpression` (runtime.ts:1104-1133): the object
must be an array or string (checked first); each bound must evaluate to an
integer or `Undefined`. -/
def evalSliceEx : Nat → Value → Option Node → Option Node → Option Node → Nat →
    Store → Res (Value × Store)
  | 0, _, _, _, _, _, _ => .err "out of fuel"
  | fuel + 1, object, start, stop, step, env, st =>
    if ¬(object.isArrayLike ∨ object.tag = "StringValue") then
      .err "Slice object must be an array or string"
    else do
      let (startV, st1) ← evalOptNode fuel start env st
      let (stopV, st2) ← evalOptNode fuel stop env st1
      let (stepV, st3) ← evalOptNode fuel step env st2
      let startI ←
        match startV with
        | .int n => pure (some n)
        | .undef => pure none
        | _ => .err "Slice start must be numeric or undefined"
      let stopI ←
        match stopV with
        | .int n => pure (some n)
        | .undef => pure none
        | _ => .err "Slice stop must be numeric or undefined"
      let stepI ←
        match stepV with
        | .int n => pure (some n)
        | .undef => pure none
        | _ => .err "Slice step must be numeric or undefined"
      match object with
      | .str s => pure (.str (String.mk (sliceList s.toList startI stopI stepI)), st3)
      | _ => pure (.array (sliceList object.elems startI stopI stepI), st3)

termination_by structural fuel _ _ _ _ _ _ => fuel

/-- Evaluate an optional node; an absent node is the host `undefined`, which
`evaluate` maps to `UndefinedValue` (runtime.ts:1416). -/
def evalOptNode : Nat → Option Node → Nat → Store → Res (Value × Store)
  | 0, _, _, _ => .err "out of fuel"
  | fuel + 1, o, env, st =>
    match o with
    | none => pure (.undef, st)
    | some n => evalNode fuel n env st

termination_by structural fuel _ _ _ => fuel

/-- `Interpreter.evaluateCallStatement` (runtime.ts:1384-1408): build the
`caller` closure, evaluate the call arguments (always appending the kwargs
payload), and invoke the target in a fresh child scope with `caller` bound. -/
def evalCallStmt : Nat → Node → List Node → Option (List Node) → List Node →
    Nat → Store → Res (Value × Store)
  | 0, _, _, _, _, _, _ => .err "out of fuel"
  | fuel + 1, callee, cargs, callerArgs, body, env, st => do
    let callerFn := Value.funcCaller callerArgs body
    let ((pos, kw), st1) ← evalArgs fuel cargs env st [] []
    let margs := pos ++ [.kwargsV kw]
    let (fn, st2) ← evalNode fuel callee env st1
    if ¬fn.isFunc then
      .err ("Cannot call something that is not a function: got " ++ fn.tag)
    else
      let newEnvId := st2.frames.length
      let st3 := pushFrame (some env) st2
      let st4 := setVar st3 newEnvId "caller" callerFn
      applyFuncV fuel fn margs newEnvId st4

termination_by structural fuel _ _ _ _ _ _ => fuel

/-- Invocation of a `FunctionValue`.  A macro closure (runtime.ts:1344-1377)
creates a child of the **scope passed at the call site** (the closure captures
only the macro node), separates a trailing kwargs payload, binds the declared
parameters and renders the body.  A `caller` closure (runtime.ts:1385-1397)
creates a child of the invoking environment and binds its declared parameters
positionally.  A builtin closure runs the method on its bound receiver.  The
`namespace` builtin (runtime.ts:386-396) echoes its object argument or makes a
fresh empty object. -/
def applyFuncV : Nat → Value → List Value → Nat → Store → Res (Value × Store)
  | 0, _, _, _, _ => .err "out of fuel"
  | fuel + 1, fn, args, env, st =>
    match fn with
    | .funcMacro params body =>
      let macroScopeId := st.frames.length
      let st1 := pushFrame (some env) st
      let pk := splitKwargsArg args
      do
        let st2 ← bindMacroParams fuel params 0 pk.1 pk.2 macroScopeId st1
        let (s, st3) ← evalBlock fuel body macroScopeId st2
        pure (.str s, st3)
    | .funcCaller params body =>
      let id := st.frames.length
      let st1 := pushFrame (some env) st
      do
        let st2 ←
          match params with
          | some ps => liftE (bindCallerParams ps args 0 id st1)
          | none => pure st1
        let (s, st3) ← evalBlock fuel body id st2
        pure (.str s, st3)
    | .funcBuiltin recv bname => do
      let v ← liftE (callBuiltin recv bname args)
      pure (v, st)
    | .funcNamespace =>
      match args with
      | [] => pure (.obj [], st)
      | [a] =>
        if a.isObjectLike then pure (a, st)
        else .err "`namespace` expects either zero arguments or a single object argument"
      | _ => .err "`namespace` expects either zero arguments or a single object argument"
    | _ => .err ("Cannot call something that is not a function: got " ++ fn.tag)

termination_by structural fuel _ _ _ _ => fuel

/-- The parameter-binding loop of a macro invocation (runtime.ts:1356-1375):
an identifier parameter requires the positional argument at its index; a
default parameter takes the positional argument, else the caller's keyword
argument, else its declared default expression evaluated in the macro's call
scope. -/
def bindMacroParams : Nat → List Node → Nat → List Value →
    Option (List (String × Value)) → Nat → Store → Res Store
  | 0, _, _, _, _, _, _ => .err "out of fuel"
  | fuel + 1, params, idx, posArgs, kw?, frameId, st =>
    match params with
    | [] => pure st
    | p :: rest =>
      match p with
      | .ident x =>
        match posArgs.get? idx with
        | none => .err ("Missing positional argument: " ++ x)
        | some v =>
          bindMacroParams fuel rest (idx + 1) posArgs kw? frameId (setVar st frameId x v)
      | .kwargEx key defExpr =>
        match posArgs.get? idx with
        | some v =>
          bindMacroParams fuel rest (idx + 1) posArgs kw? frameId
            (setVar st frameId key v)
        | none =>
          match kw? >>= fun m => m.lookup key with
          | some v =>
            bindMacroParams fuel rest (idx + 1) posArgs kw? frameId
              (setVar st frameId key v)
          | none => do
            let (v, st') ← evalNode fuel defExpr frameId st
            bindMacroParams fuel rest (idx + 1) posArgs kw? frameId
              (setVar st' frameId key v)
      | _ => .err ("Unknown argument type: " ++ p.kindName)

termination_by structural fuel _ _ _ _ _ _ => fuel

/-- `Interpreter.evaluateFor` (runtime.ts:1220-1336): create the loop scope,
evaluate the iterable (objects iterate over their keys), filter the candidates
through the select-expression test in per-item subscopes, then run the body
per surviving item with the `loop` object bound; `break`/`continue` outcomes
are caught here; if no iteration completed, the `defaultBlock` renders. -/
def evalForStmt : Nat → Node → Node → List Node → List Node → Nat → Store →
    Res (Value × Store)
  | 0, _, _, _, _, _, _ => .err "out of fuel"
  | fuel + 1, loopvar, iterableNode, body, defaultBlock, env, st => do
    let scopeId := st.frames.length
    let st0 := pushFrame (some env) st
    let (iterable, testOpt, st1) ←
      match iterableNode with
      | .selectEx lhs t => do
        let (v, st') ← evalNode fuel lhs scopeId st0
        pure (v, some t, st')
      | other => do
        let (v, st') ← evalNode fuel other scopeId st0
        pure (v, (none : Option Node), st')
    let vals ←
      if iterable.isArrayLike then pure iterable.elems
      else if iterable.isObjectLike then
        pure (iterable.objEntries.map fun kv => Value.str kv.1)
      else .err ("Expected iterable or object type in for loop: got " ++ iterable.tag)
    let (items, st2) ← forPhase1 fuel loopvar testOpt vals scopeId st1 []
    let out ← forPhase2 fuel loopvar body items 0 scopeId st2 "" true
    if out.2.2 then do
      let (ds, st4) ← evalBlock fuel defaultBlock scopeId out.2.1
      pure (Value.str (out.1 ++ ds), st4)
    else pure (Value.str out.1, out.2.1)

termination_by structural fuel _ _ _ _ _ _ => fuel

/-- Candidate filtering of `evaluateFor` (runtime.ts:1241-1286): each candidate
gets a fresh subscope; the loop-variable shape checks run per candidate, and
with a select test the candidate is bound and the test decides survival. -/
def forPhase1 : Nat → Node → Option Node → List Value → Nat → Store →
    List Value → Res (List Value × Store)
  | 0, _, _, _, _, _, _ => .err "out of fuel"
  | fuel + 1, loopvar, testOpt, vals, scope, st, acc =>
    match vals with
    | [] => pure (acc, st)
    | current :: rest =>
      let loopScopeId := st.frames.length
      let st1 := pushFrame (some scope) st
      let check : Except String Unit :=
        match loopvar with
        | .ident _ => .ok ()
        | .tupleLit ps =>
          if current.tag ≠ "ArrayValue" then
            .error ("Cannot unpack non-iterable type: " ++ current.tag)
          else if ps.length ≠ current.elems.length then
            .error ("Too " ++
              (if ps.length > current.elems.length then "few" else "many") ++
              " items to unpack")
          else .ok ()
        | _ => .error ("Invalid loop variable(s): " ++ loopvar.kindName)
      do
        let _ ← liftE check
        match testOpt with
        | some t => do
          let st2 ← liftE (bindLoopvar loopvar current loopScopeId st1)
          let (tv, st3) ← evalNode fuel t loopScopeId st2
          if tv.truthy then
            forPhase1 fuel loopvar testOpt rest scope st3 (acc ++ [current])
          else forPhase1 fuel loopvar testOpt rest scope st3 acc
        | none => forPhase1 fuel loopvar testOpt rest scope st1 (acc ++ [current])

termination_by structural fuel _ _ _ _ _ _ => fuel

/-- The body loop of `evaluateFor` (runtime.ts:1288-1334): bind `loop` and the
loop variable in the loop scope, render the body, catch `continue` (skipping
the iteration-completed flag) and `break` (stopping), and report whether any
iteration completed. -/
def forPhase2 : Nat → Node → List Node → List Value → Nat → Nat → Store →
    String → Bool → Res (String × Store × Bool)
  | 0, _, _, _, _, _, _, _, _ => .err "out of fuel"
  | fuel + 1, loopvar, body, items, i, scope, st, acc, noIter =>
    match items.get? i with
    | none => pure (acc, st, noIter)
    | some current =>
      let st1 := setVar st scope "loop" (loopObject i items)
      do
        let st2 ← liftE (bindLoopvar loopvar current scope st1)
        match evalBlock fuel body scope st2 with
        | .ok (s, st3) =>
          forPhase2 fuel loopvar body items (i + 1) scope st3 (acc ++ s) false
        | .cont st3 => forPhase2 fuel loopvar body items (i + 1) scope st3 acc noIter
        | .brk st3 => pure (acc, st3, noIter)
        | .err m => .err m

termination_by structural fuel _ _ _ _ _ _ _ _ => fuel

/-- `Interpreter.applyFilter` (runtime.ts:690-1004), call surface form (the
identifier form is the pure `applyFilterIdent`).  `tojson`, `join`,
`int`/`float` and `default` are handled for every receiver first; then arrays
support `selectattr`/`rejectattr`/`map`, strings support `indent`/`replace`,
and anything else cannot be filtered in call form. -/
def applyFilterE : Nat → Value → Node → Nat → Store → Res (Value × Store)
  | 0, _, _, _, _ => .err "out of fuel"
  | fuel + 1, operand, filterNode, env, st =>
    match filterNode with
    | .ident fname => do
      let v ← liftE (applyFilterIdent operand fname)
      pure (v, st)
    | .callEx callee fargs =>
      match callee with
      | .ident fname =>
        if fname = "tojson" then do
          let ((_, kw), st1) ← evalArgs fuel fargs env st [] []
          let indentV := (kw.lookup "indent").getD .null
          match indentV with
          | .int n => do
            let s ← liftE (toJSON operand (some n) 0)
            pure (Value.str s, st1)
          | .null => do
            let s ← liftE (toJSON operand none 0)
            pure (Value.str s, st1)
          | _ => .err "If set, indent must be a number"
        else if fname = "join" then
          if ¬(operand.tag = "StringValue" ∨ operand.isArrayLike) then
            .err ("Cannot apply filter \"join\" to type: " ++ operand.tag)
          else do
            let ((pos, kw), st1) ← evalArgs fuel fargs env st [] []
            let sepV := (pos.get? 0).getD ((kw.lookup "separator").getD (.str ""))
            match sepV with
            | .str sep =>
              let joined :=
                match operand with
                | .str s => String.intercalate sep (s.toList.map fun c => String.mk [c])
                | v => joinPayloads v.elems sep
              pure (Value.str joined, st1)
            | _ => .err "separator must be a string"
        else if fname = "int" ∨ fname = "float" then do
          let ((pos, kw), st1) ← evalArgs fuel fargs env st [] []
          let defaultValue :=
            (pos.get? 0).getD ((kw.lookup "default").getD
              (if fname = "int" then .int 0 else .float 0))
          match operand with
          | .str s =>
            if fname = "int" then
              match jsParseInt s with
              | some v => pure (Value.int v, st1)
              | none => pure (defaultValue, st1)
            else
              match jsParseFloat s with
              | some v => pure (Value.float v, st1)
              | none => pure (defaultValue, st1)
          | .int _ => pure (operand, st1)
          | .float _ => pure (operand, st1)
          | .bool b =>
            pure (if fname = "int" then Value.int (cond b 1 0)
              else Value.float (cond b 1 0), st1)
          | _ => .err ("Cannot apply filter \"" ++ fname ++ "\" to type: " ++ operand.tag)
        else if fname = "default" then do
          let ((pos, kw), st1) ← evalArgs fuel fargs env st [] []
          let v ← liftE (defaultFilterCore operand pos kw)
          pure (v, st1)
        else if operand.isArrayLike then
          if fname = "selectattr" ∨ fname = "rejectattr" then
            if operand.elems.any fun x => ¬x.isObjectLike then
              .err ("`" ++ fname ++ "` can only be applied to array of objects")
            else if fargs.any fun x => x.kindName ≠ "StringLiteral" then
              .err ("arguments of `" ++ fname ++ "` must be strings")
            else do
              let (argVals, st1) ← evalNodeList fuel fargs env st
              match argVals.get? 0 with
              | none => .err "TypeError: cannot read value of undefined"
              | some attrV =>
                let attrS := match attrV with | .str a => a | _ => ""
                let extra? := argVals.get? 2
                match argVals.get? 1 with
                | some (Value.str tn) =>
                  if ¬testKnown tn then .err ("Unknown test: " ++ tn)
                  else do
                    let filtered ← liftE
                      (selattrLoop (fname = "selectattr") attrS (some tn) extra?
                        operand.elems)
                    pure (Value.array filtered, st1)
                | _ => do
                  let filtered ← liftE
                    (selattrLoop (fname = "selectattr") attrS none extra?
                      operand.elems)
                  pure (Value.array filtered, st1)
          else if fname = "map" then do
            let ((_, kw), st1) ← evalArgs fuel fargs env st [] []
            match kw.lookup "attribute" with
            | some (Value.str attrS) => do
              let mapped ← liftE (mapAttrLoop attrS (kw.lookup "default") operand.elems)
              pure (Value.array mapped, st1)
            | some _ => .err "attribute must be a string"
            | none => .err "`map` expressions without `attribute` set are not currently supported."
          else .err ("Unknown ArrayValue filter: " ++ fname)
        else
          match operand with
          | .str s =>
            if fname = "indent" then do
              let ((pos, kw), st1) ← evalArgs fuel fargs env st [] []
              let widthV := (pos.get? 0).getD ((kw.lookup "width").getD (.int 4))
              match widthV with
              | .int w =>
                if w < 0 then .err "RangeError: Invalid count value"
                else
                  let firstV := (pos.get? 1).getD ((kw.lookup "first").getD (.bool false))
                  let blankV := (pos.get? 2).getD ((kw.lookup "blank").getD (.bool false))
                  let pad := strRepeat " " w.toNat
                  pure (Value.str (String.intercalate "\n"
                    (indentLines pad firstV.payloadTruthy blankV.payloadTruthy
                      (splitNewlines s) 0)), st1)
              | _ => .err "width must be a number"
            else if fname = "replace" then do
              let ((pos, kw), st1) ← evalArgs fuel fargs env st [] []
              let v ← liftE (callBuiltin (.str s) "replace" (pos ++ [.kwargsV kw]))
              pure (v, st1)
            else .err ("Unknown StringValue filter: " ++ fname)
          | _ => .err ("Cannot apply filter \"" ++ fname ++ "\" to type: " ++ operand.tag)
      | _ => .err ("Unknown filter: " ++ callee.kindName)
    | _ => .err ("Unknown filter: " ++ filterNode.kindName)

termination_by structural fuel _ _ _ _ => fuel
end

/-- `Interpreter.run` (runtime.ts:541-543): evaluate the program in the
interpreter's global environment. -/
def run (fuel : Nat) (program : Node) (globalEnv : Nat) (st : Store) :
    Res (Value × Store) :=
  evalNode fuel program globalEnv st

/-- The store of a freshly constructed `Interpreter` with a fresh global
`Environment` (frame 0). -/
def initStore : Store := ⟨[⟨baseVars, none⟩]⟩

/-! ## Shared lemmas -/

theorem setEntry_lookup_self (k : String) (v : Value) :
    ∀ m : List (String × Value), (setEntry m k v).lookup k = some v := by
  intro m
  induction m with
  | nil => simp [setEntry]
  | cons hd tl ih =>
    by_cases h : hd.1 = k
    · simp [setEntry, h]
    · simp only [setEntry]
      rw [if_neg h]
      have : (k == hd.1) = false := by
        simp [BEq.beq]
        exact fun he => h he.symm
      simp [List.lookup, this, ih]

theorem setVar_frames_self (st : Store) (id : Nat) (name : String) (v : Value)
    (fr : Frame) (hfr : st.frames[id]? = some fr) :
    (setVar st id name v).frames[id]? = some ⟨setEntry fr.vars name v, fr.parent⟩ := by
  have hid : id < st.frames.length := by
    by_contra hcon
    rw [List.getElem?_eq_none (by omega)] at hfr
    exact Option.noConfusion hfr
  simp [setVar, updateFrame, hfr, List.getElem?_set_self, hid]

theorem storeWF_spec (st : Store) (hwf : storeWF st = true) :
    ∀ (i : Nat) (fr : Frame) (p : Nat),
      st.frames[i]? = some fr → fr.parent = some p → p < i := by
  intro i fr p hfr hp
  have hi : i < st.frames.length := by
    by_contra hcon
    rw [List.getElem?_eq_none (by omega)] at hfr
    exact Option.noConfusion hfr
  have hall := List.all_eq_true.mp hwf i (List.mem_range.mpr hi)
  rw [hfr] at hall
  have hall2 : (match fr.parent with
    | some p => decide (p < i)
    | none => true) = true := hall
  rw [hp] at hall2
  exact of_decide_eq_true hall2

theorem resolveAux_congr (st : Store) (name : String) (hwf : storeWF st = true) :
    ∀ id f₁ f₂, id < f₁ → id < f₂ →
      resolveAux st f₁ id name = resolveAux st f₂ id name := by
  intro id
  induction id using Nat.strong_induction_on with
  | _ id IH =>
    intro f₁ f₂ h₁ h₂
    obtain ⟨a, rfl⟩ : ∃ a, f₁ = a + 1 := ⟨f₁ - 1, by omega⟩
    obtain ⟨b, rfl⟩ : ∃ b, f₂ = b + 1 := ⟨f₂ - 1, by omega⟩
    simp only [resolveAux]
    cases hfr : st.frames[id]? with
    | none => rfl
    | some fr =>
      by_cases hb : (fr.vars.lookup name).isSome
      · simp [hb]
      · simp only [hb, Bool.false_eq_true, if_false]
        cases hp : fr.parent with
        | none => rfl
        | some p =>
          have hpi := storeWF_spec st hwf id fr p hfr hp
          exact IH p hpi a b (by omega) (by omega)

/-! ## Claims -/

/-- C1: For every Program node and every environment, evaluating the program
(`Interpreter.run`) either fails or returns a String value: whenever `run`
succeeds its value carries the String tag, and the block evaluator accumulates
the stringifications of its statements, contributing the empty string for
`Null`- and `Undefined`-tagged results. -/
theorem C1_run_always_string :
    (∀ fuel body env st v st',
      run fuel (.program body) env st = .ok (v, st') → ∃ s, v = .str s) ∧
    (∀ fuel stmt rest env st v st₁,
      evalNode fuel stmt env st = .ok (v, st₁) →
      evalBlock (fuel + 1) (stmt :: rest) env st =
        Res.bind (evalBlock fuel rest env st₁) fun p =>
          .ok ((if v.tag = "NullValue" ∨ v.tag = "UndefinedValue" then ""
            else valueToString v) ++ p.1, p.2)) := by
  constructor
  · intro fuel body env st v st' h
    cases fuel with
    | zero => exact absurd h (by simp [run, evalNode])
    | succ f =>
      have hrw : run (f + 1) (.program body) env st =
          Res.bind (evalBlock f body env st) fun p => .ok (.str p.1, p.2) := rfl
      rw [hrw] at h
      cases hb : evalBlock f body env st with
      | ok p =>
        rw [hb] at h
        simp only [Res.bind, Res.ok.injEq, Prod.mk.injEq] at h
        exact ⟨p.1, h.1.symm⟩
      | err m => rw [hb] at h; exact absurd h (by simp [Res.bind])
      | brk s => rw [hb] at h; exact absurd h (by simp [Res.bind])
      | cont s => rw [hb] at h; exact absurd h (by simp [Res.bind])
  · intro fuel stmt rest env st v st₁ h
    have hrw : evalBlock (fuel + 1) (stmt :: rest) env st =
        Res.bind (evalNode fuel stmt env st) fun x =>
          Res.bind (evalBlock fuel rest env x.2) fun p =>
            .ok ((if x.1.tag = "NullValue" ∨ x.1.tag = "UndefinedValue" then ""
              else valueToString x.1) ++ p.1, p.2) := rfl
    rw [hrw, h]
    rfl

/-- Witness for C1 at the one-statement program rendering `"hi"`. -/
theorem C1_witness : ∃ s, Value.str "hi" = Value.str s :=
  C1_run_always_string.1 5 [.strLit "hi"] 0 initStore (.str "hi") initStore rfl

/-- C3: `lookupVariable` never fails: a name bound in the frame itself is
returned, an unbound name defers to the parent frame, and a name bound nowhere
in the chain yields `Undefined`; consequently evaluating an `Identifier`
expression always succeeds, returning the looked-up value. -/
theorem C3_lookup_total :
    (∀ st id name fr v, st.frames[id]? = some fr →
      fr.vars.lookup name = some v → lookupVariable st id name = v) ∧
    (∀ st id name fr p, storeWF st = true → st.frames[id]? = some fr →
      fr.vars.lookup name = none → fr.parent = some p →
      lookupVariable st id name = lookupVariable st p name) ∧
    (∀ st id name fr, st.frames[id]? = some fr → fr.vars.lookup name = none →
      fr.parent = none → lookupVariable st id name = .undef) ∧
    (∀ st id name, st.frames[id]? = none → lookupVariable st id name = .undef) ∧
    (∀ fuel name env st,
      evalNode (fuel + 1) (.ident name) env st =
        .ok (lookupVariable st env name, st)) := by
  refine ⟨?_, ?_, ?_, ?_, ?_⟩
  · intro st id name fr v hfr hlook
    simp [lookupVariable, resolve, resolveAux, hfr, hlook]
  · intro st id name fr p hwf hfr hlook hp
    have hpi := storeWF_spec st hwf id fr p hfr hp
    have h1 : resolveAux st (id + 1) id name = resolveAux st id p name := by
      simp [resolveAux, hfr, hlook, hp]
    have h2 : resolveAux st id p name = resolveAux st (p + 1) p name :=
      resolveAux_congr st name hwf p id (p + 1) hpi (by omega)
    simp only [lookupVariable, resolve, h1, h2]
  · intro st id name fr hfr hlook hp
    simp [lookupVariable, resolve, resolveAux, hfr, hlook, hp]
  · intro st id name hfr
    simp [lookupVariable, resolve, resolveAux, hfr]
  · intro fuel name env st
    rfl

/-- Witness for C3 at a two-frame chain: the inner frame has no binding for
`x`, the outer one binds it to `7`. -/
theorem C3_witness :
    lookupVariable ⟨[⟨[("x", .int 7)], none⟩, ⟨[], some 0⟩]⟩ 1 "x" =
      lookupVariable ⟨[⟨[("x", .int 7)], none⟩, ⟨[], some 0⟩]⟩ 0 "x" :=
  C3_lookup_total.2.1 ⟨[⟨[("x", .int 7)], none⟩, ⟨[], some 0⟩]⟩ 1 "x" ⟨[], some 0⟩ 0
    rfl rfl rfl rfl

/-- C9: the `loop` object bound at every iteration satisfies
`index0 + revindex0 + 1 = length`, `index = index0 + 1`,
`revindex = revindex0 + 1`, `first` exactly on the first iteration and `last`
exactly on the last. -/
theorem C9_loop_invariant (i : Nat) (items : List Value) (_h : i < items.length) :
    ((loopObject i items).objEntries.lookup "index0" = some (.int (i : Int))) ∧
    ((loopObject i items).objEntries.lookup "revindex0" =
      some (.int ((items.length : Int) - i - 1))) ∧
    ((loopObject i items).objEntries.lookup "length" =
      some (.int (items.length : Int))) ∧
    ((i : Int) + ((items.length : Int) - i - 1) + 1 = (items.length : Int)) ∧
    ((loopObject i items).objEntries.lookup "index" = some (.int ((i : Int) + 1))) ∧
    ((loopObject i items).objEntries.lookup "revindex" =
      some (.int ((items.length : Int) - i))) ∧
    ((items.length : Int) - i = ((items.length : Int) - i - 1) + 1) ∧
    ((loopObject i items).objEntries.lookup "first" =
      some (.bool (decide (i = 0)))) ∧
    ((loopObject i items).objEntries.lookup "last" =
      some (.bool (decide ((i : Int) = (items.length : Int) - 1)))) := by
  refine ⟨?_, ?_, ?_, by omega, ?_, ?_, by omega, ?_, ?_⟩ <;>
    simp [loopObject, Value.objEntries, List.lookup]

/-- Witness for C9 at the first iteration of a two-element loop. -/
theorem C9_witness :
    ((loopObject 0 [.int 5, .int 6]).objEntries.lookup "index0" =
      some (.int 0)) ∧
    ((loopObject 0 [.int 5, .int 6]).objEntries.lookup "revindex0" =
      some (.int 1)) ∧
    ((loopObject 0 [.int 5, .int 6]).objEntries.lookup "first" =
      some (.bool true)) := by
  have h := C9_loop_invariant 0 [.int 5, .int 6] (by decide)
  exact ⟨h.1, h.2.1, h.2.2.2.2.2.2.2.1⟩

/-- C10: seeding the same name twice through the public `Environment.set`
fails with `Variable already declared` on the second call, while the
template-level `setVariable` silently overwrites. -/
theorem C10_set_twice_fails (st : Store) (id : Nat) (name : String)
    (h1 h2 : HostValue) (fr : Frame) (hfr : st.frames[id]? = some fr)
    (hfree : fr.vars.lookup name = none) :
    envSet st id name h1 = .ok (setVar st id name (convertToRuntimeValues h1)) ∧
    envSet (setVar st id name (convertToRuntimeValues h1)) id name h2 =
      .error ("Variable already declared: " ++ name) ∧
    (∀ v : Value, ∃ fr',
      (setVar (setVar st id name (convertToRuntimeValues h1)) id name v).frames[id]? =
        some fr' ∧ fr'.vars.lookup name = some v) := by
  have hset := setVar_frames_self st id name (convertToRuntimeValues h1) fr hfr
  refine ⟨?_, ?_, ?_⟩
  · simp [envSet, declareVariable, hfr, hfree]
  · simp [envSet, declareVariable, hset, setEntry_lookup_self]
  · intro v
    have hset2 := setVar_frames_self _ id name v _ hset
    exact ⟨_, hset2, setEntry_lookup_self name v _⟩

/-- Witness for C10 on the initial store: seeding `x` succeeds once and fails
the second time. -/
theorem C10_witness :
    envSet initStore 0 "x" (.numH 1) =
      .ok (setVar initStore 0 "x" (convertToRuntimeValues (.numH 1))) ∧
    envSet (setVar initStore 0 "x" (convertToRuntimeValues (.numH 1))) 0 "x"
        (.numH 2) =
      .error ("Variable already declared: " ++ "x") := by
  have h := C10_set_twice_fails initStore 0 "x" (.numH 1) (.numH 2)
    ⟨baseVars, none⟩ rfl rfl
  exact ⟨h.1, h.2.1⟩

/-- A value whose `isNum` holds is an `IntegerValue` or a `FloatValue`. -/
theorem isNum_shape (v : Value) (h : v.isNum = true) :
    (∃ n, v = .int n) ∨ (∃ q, v = .float q) := by
  cases v <;> simp_all [Value.isNum]

/-- The `UndefinedValue` tag characterizes the `undef` constructor. -/
theorem tag_undefined_iff (v : Value) : v.tag = "UndefinedValue" ↔ v = .undef := by
  cases v <;> simp [Value.tag]

/-- The `NullValue` tag characterizes the `null` constructor. -/
theorem tag_null_iff (v : Value) : v.tag = "NullValue" ↔ v = .null := by
  cases v <;> simp [Value.tag]

/-- C4: on numeric operands, `+`, `-`, `*` and `%` return an Integer-tagged
value when both operands are Integers and a Float-tagged value when at least
one is a Float; `/` always returns a Float-tagged value; and the comparison
operators return Booleans. -/
theorem C4_numeric_operator_tags (l r : Value) (hl : l.isNum = true)
    (hr : r.isNum = true) :
    ((l.tag = "IntegerValue" ∧ r.tag = "IntegerValue" →
      ∀ op, op = "+" ∨ op = "-" ∨ op = "*" ∨ op = "%" →
        ∃ n : Int, binop op l r = .ok (.int n))) ∧
    (((l.tag = "FloatValue" ∨ r.tag = "FloatValue") →
      ∀ op, op = "+" ∨ op = "-" ∨ op = "*" ∨ op = "%" →
        ∃ q : Rat, binop op l r = .ok (.float q))) ∧
    (∃ q : Rat, binop "/" l r = .ok (.float q)) ∧
    (∀ op, op = "<" ∨ op = "<=" ∨ op = ">" ∨ op = ">=" →
      ∃ b : Bool, binop op l r = .ok (.bool b)) := by
  rcases isNum_shape l hl with ⟨a, rfl⟩ | ⟨a, rfl⟩ <;>
    rcases isNum_shape r hr with ⟨b, rfl⟩ | ⟨b, rfl⟩
  · exact ⟨fun _ op hop => by rcases hop with rfl | rfl | rfl | rfl <;> exact ⟨_, rfl⟩,
      fun hf => by simp [Value.tag] at hf,
      ⟨_, rfl⟩,
      fun op hop => by rcases hop with rfl | rfl | rfl | rfl <;> exact ⟨_, rfl⟩⟩
  · exact ⟨fun hf => by simp [Value.tag] at hf,
      fun _ op hop => by rcases hop with rfl | rfl | rfl | rfl <;> exact ⟨_, rfl⟩,
      ⟨_, rfl⟩,
      fun op hop => by rcases hop with rfl | rfl | rfl | rfl <;> exact ⟨_, rfl⟩⟩
  · exact ⟨fun hf => by simp [Value.tag] at hf,
      fun _ op hop => by rcases hop with rfl | rfl | rfl | rfl <;> exact ⟨_, rfl⟩,
      ⟨_, rfl⟩,
      fun op hop => by rcases hop with rfl | rfl | rfl | rfl <;> exact ⟨_, rfl⟩⟩
  · exact ⟨fun hf => by simp [Value.tag] at hf,
      fun _ op hop => by rcases hop with rfl | rfl | rfl | rfl <;> exact ⟨_, rfl⟩,
      ⟨_, rfl⟩,
      fun op hop => by rcases hop with rfl | rfl | rfl | rfl <;> exact ⟨_, rfl⟩⟩

/-- Witness for C4: `1 + 2` is Integer-tagged and `1 / 2` is Float-tagged. -/
theorem C4_witness :
    (∃ n : Int, binop "+" (.int 1) (.int 2) = .ok (.int n)) ∧
    (∃ q : Rat, binop "/" (.int 1) (.int 2) = .ok (.float q)) := by
  have h := C4_numeric_operator_tags (.int 1) (.int 2) rfl rfl
  exact ⟨h.1 ⟨rfl, rfl⟩ "+" (Or.inl rfl), h.2.2.1⟩

/-- Counterexample for C5: the identifier surface form `x | default` is not
implemented — on an Undefined receiver `applyFilter` reaches the
cannot-apply-filter error, and on an Integer receiver the unknown-numeric-
filter error, instead of returning the `default` semantics the claim asserts
for every receiver. -/
theorem C5_counterexample :
    applyFilterIdent (.undef) "default" =
      .error "Cannot apply filter \"default\" to type: UndefinedValue" ∧
    applyFilterIdent (.int 0) "default" =
      .error "Unknown NumericValue filter: default" := ⟨rfl, rfl⟩

/-- C5 (amended): the `default` filter is universal in the **call** surface
form only: there it returns `args[0]` (defaulting to the empty string) when
the receiver is Undefined or the boolean flag is set and the receiver falsy,
and the receiver otherwise; the identifier surface form fails.  The three
quoted examples render as the claim states. -/
theorem C5_default_call_form :
    (∀ (operand : Value) (args : List Value) (kwargs : List (String × Value))
        (b : Bool),
      (args[1]?).getD ((kwargs.lookup "boolean").getD (.bool false)) = .bool b →
      defaultFilterCore operand args kwargs =
        .ok (if operand.tag = "UndefinedValue" ∨ (b ∧ ¬operand.truthy) then
          (args[0]?).getD (.str "") else operand)) ∧
    run 30 (.program [.filterEx (.ident "missing")
        (.callEx (.ident "default") [.strLit "-"])]) 0 initStore =
      .ok (.str "-", initStore) ∧
    run 30 (.program [.filterEx (.intLit 0)
        (.callEx (.ident "default") [.strLit "-", .ident "true"])]) 0
        ⟨[⟨baseVars ++ [("true", .bool true)], none⟩]⟩ =
      .ok (.str "-", ⟨[⟨baseVars ++ [("true", .bool true)], none⟩]⟩) ∧
    run 30 (.program [.filterEx (.intLit 0)
        (.callEx (.ident "default") [.strLit "-"])]) 0 initStore =
      .ok (.str "0", initStore) := by
  refine ⟨?_, rfl, rfl, rfl⟩
  intro operand args kwargs b hb
  simp only [defaultFilterCore, hb]
  by_cases hc : operand.tag = "UndefinedValue" ∨ (b ∧ ¬operand.truthy)
  · rw [if_pos hc, if_pos hc]
  · rw [if_neg hc, if_neg hc]

/-- Witness for C5 (amended) at receiver `0` with default `"-"` and no flag. -/
theorem C5_witness :
    defaultFilterCore (.int 0) [.str "-"] [] =
      .ok (if (Value.int 0).tag = "UndefinedValue" ∨
          (false ∧ ¬(Value.int 0).truthy) then
        (([(Value.str "-")])[0]?).getD (.str "") else .int 0) :=
  C5_default_call_form.1 (.int 0) [.str "-"] [] false rfl

/-- C7: for operators other than `and`/`or`/`==`/`!=` (the first two
short-circuit before `binop`, the equality pair is dispatched first inside
it): `in`/`not in` with an Undefined right-hand side yield `False`/`True`;
any other operator application involving an Undefined operand fails; and with
no Undefined operand, a Null operand fails. -/
theorem C7_undefined_null_operands (op : String) (l r : Value)
    (h1 : op ≠ "==") (h2 : op ≠ "!=") :
    ((op = "in" ∨ op = "not in") → r = .undef →
      binop op l r = .ok (.bool (decide (op = "not in")))) ∧
    ((l = .undef ∨ r = .undef) → ¬((op = "in" ∨ op = "not in") ∧ r = .undef) →
      binop op l r =
        .error ("Cannot perform operation " ++ op ++ " on undefined values")) ∧
    (l ≠ .undef → r ≠ .undef → (l = .null ∨ r = .null) →
      binop op l r = .error "Cannot perform operation on null values") := by
  refine ⟨?_, ?_, ?_⟩
  · intro hop hr
    subst hr
    rcases hop with rfl | rfl <;> cases l <;> rfl
  · intro hlr hn
    have hcond : l.tag = "UndefinedValue" ∨ r.tag = "UndefinedValue" := by
      rcases hlr with rfl | rfl
      · exact Or.inl rfl
      · exact Or.inr rfl
    have hcond2 : ¬(r.tag = "UndefinedValue" ∧ (op = "in" ∨ op = "not in")) := by
      rintro ⟨hru, hops⟩
      exact hn ⟨hops, (tag_undefined_iff r).mp hru⟩
    simp only [binop]
    rw [if_neg h1, if_neg h2, if_pos hcond, if_neg hcond2]
  · intro hlu hru hnull
    have hcond : ¬(l.tag = "UndefinedValue" ∨ r.tag = "UndefinedValue") := by
      rintro (hu | hu)
      · exact hlu ((tag_undefined_iff l).mp hu)
      · exact hru ((tag_undefined_iff r).mp hu)
    have hcond2 : l.tag = "NullValue" ∨ r.tag = "NullValue" := by
      rcases hnull with rfl | rfl
      · exact Or.inl rfl
      · exact Or.inr rfl
    simp only [binop]
    rw [if_neg h1, if_neg h2, if_neg hcond, if_pos hcond2]

/-- Witness for C7: `1 in undefined` is `False`, `undefined + 1` fails, and
`null * 1` fails. -/
theorem C7_witness :
    binop "in" (.int 1) .undef = .ok (.bool false) ∧
    binop "+" .undef (.int 1) =
      .error ("Cannot perform operation " ++ "+" ++ " on undefined values") ∧
    binop "*" (.null) (.int 1) =
      .error "Cannot perform operation on null values" := by
  refine ⟨?_, ?_, ?_⟩
  · exact (C7_undefined_null_operands "in" (.int 1) .undef (by decide) (by decide)).1
      (Or.inl rfl) rfl
  · exact (C7_undefined_null_operands "+" .undef (.int 1) (by decide) (by decide)).2.1
      (Or.inl rfl) (by rintro ⟨h, -⟩; rcases h with h | h <;> simp at h)
  · exact (C7_undefined_null_operands "*" .null (.int 1) (by decide)
      (by decide)).2.2 (by rintro h; cases h) (by rintro h; cases h) (Or.inl rfl)

/-- Counterexample for C8: `a | reverse` does **not** leave the element
sequence of `a` unchanged — `operand.value.reverse()` (runtime.ts:721)
reverses the operand's buffer in place, so after the filter the operand holds
the reversed sequence. -/
theorem C8_counterexample :
    (reverseFilterEffect [.int 1, .int 2]).2 = [.int 2, .int 1] ∧
    (reverseFilterEffect [.int 1, .int 2]).2 ≠ [.int 1, .int 2] := by
  refine ⟨rfl, ?_⟩
  intro h
  simp [reverseFilterEffect] at h

/-- C8 (amended): `reverse` (and likewise `sort`) return the transformed
sequence but also leave the operand's own buffer transformed (the result
aliases it), so the operand is *not* unchanged; applying `reverse` twice
restores the original element sequence (and the final result aliases the
operand, so it also compares equal to it). -/
theorem C8_reverse_effect (xs : List Value) :
    (reverseFilterEffect xs).1 = xs.reverse ∧
    (reverseFilterEffect xs).2 = xs.reverse ∧
    (reverseFilterEffect (reverseFilterEffect xs).1).1 = xs ∧
    (reverseFilterEffect (reverseFilterEffect xs).1).2 = xs ∧
    (∀ sorted after, sortFilterEffect xs = .ok (sorted, after) → after = sorted) ∧
    applyFilterIdent (.array xs) "reverse" = .ok (.array (reverseFilterEffect xs).1) := by
  refine ⟨rfl, rfl, by simp [reverseFilterEffect], by simp [reverseFilterEffect],
    ?_, rfl⟩
  intro sorted after h
  cases hs : sortValues xs with
  | error m =>
    rw [sortFilterEffect, hs] at h
    exact Except.noConfusion h
  | ok s =>
    simp only [sortFilterEffect, hs, Except.bind] at h
    cases h
    rfl

/-- Witness for C8 (amended): after sorting a singleton, the operand's buffer
equals the sorted result. -/
theorem C8_witness : [Value.int 1] = [Value.int 1] :=
  (C8_reverse_effect [.int 1]).2.2.2.2.1 [.int 1] [.int 1] rfl

/-- A successful `resolveAux` names an existing frame. -/
theorem resolveAux_some_lt (st : Store) (name : String) :
    ∀ fuel id fid, resolveAux st fuel id name = some fid →
      fid < st.frames.length := by
  intro fuel
  induction fuel with
  | zero => intro id fid h; exact absurd h (by simp [resolveAux])
  | succ f ih =>
    intro id fid h
    simp only [resolveAux] at h
    cases hfr : st.frames[id]? with
    | none => rw [hfr] at h; exact absurd h (by simp)
    | some fr =>
      rw [hfr] at h
      have h2 : (if (fr.vars.lookup name).isSome = true then some id
          else match fr.parent with
            | none => none
            | some p => resolveAux st f p name) = some fid := h
      by_cases hb : (fr.vars.lookup name).isSome
      · rw [if_pos hb] at h2
        cases h2
        by_contra hcon
        rw [List.getElem?_eq_none (by omega)] at hfr
        exact Option.noConfusion hfr
      · rw [if_neg hb] at h2
        cases hp : fr.parent with
        | none => rw [hp] at h2; exact absurd h2 (by simp)
        | some p => rw [hp] at h2; exact ih p fid h2

/-- Resolution is unaffected by appending a fresh frame, for chains starting
at an existing frame of a well-formed store. -/
theorem resolveAux_pushFrame (st : Store) (parent : Option Nat) (name : String)
    (hwf : storeWF st = true) :
    ∀ id fuel, id < st.frames.length →
      resolveAux (pushFrame parent st) fuel id name = resolveAux st fuel id name := by
  intro id
  induction id using Nat.strong_induction_on with
  | _ id IH =>
    intro fuel hid
    cases fuel with
    | zero => rfl
    | succ f =>
      have hfr : (pushFrame parent st).frames[id]? = st.frames[id]? := by
        simp [pushFrame]
        exact List.getElem?_append_left hid
      simp only [resolveAux, hfr]
      cases hfr2 : st.frames[id]? with
      | none => rfl
      | some fr =>
        by_cases hb : (fr.vars.lookup name).isSome
        · simp [hb]
        · simp only [hb, Bool.false_eq_true, if_false]
          cases hp : fr.parent with
          | none => rfl
          | some p =>
            have hpi := storeWF_spec st hwf id fr p hfr2 hp
            exact IH p hpi f (by omega)

/-- Variable lookup through a fresh child frame, at the frame's own index with
a name the base frame does not carry (anything but `namespace`), is exactly
lookup in the parent environment: the macro body sees the call-site chain. -/
theorem lookup_through_new_frame (st : Store) (env : Nat) (x : String)
    (hwf : storeWF st = true) (henv : env < st.frames.length)
    (hx : x ≠ "namespace") :
    lookupVariable (pushFrame (some env) st) st.frames.length x =
      lookupVariable st env x := by
  have hn : (pushFrame (some env) st).frames[st.frames.length]? =
      some ⟨baseVars, some env⟩ := by
    simp [pushFrame]
  have hxb : (x == "namespace") = false := beq_eq_false_iff_ne.mpr hx
  have hbase : (List.lookup x baseVars).isSome = false := by
    simp [baseVars, List.lookup, hxb]
  have h1 : resolveAux (pushFrame (some env) st) (st.frames.length + 1)
      st.frames.length x = resolveAux (pushFrame (some env) st)
        st.frames.length env x := by
    simp [resolveAux, hn, hbase]
  have h2 : resolveAux (pushFrame (some env) st) st.frames.length env x =
      resolveAux st st.frames.length env x :=
    resolveAux_pushFrame st (some env) x hwf env st.frames.length henv
  have h3 : resolveAux st st.frames.length env x =
      resolveAux st (env + 1) env x := by
    have hwf2 : storeWF st = true := hwf
    exact resolveAux_congr st x hwf2 env st.frames.length (env + 1)
      (by omega) (by omega)
  simp only [lookupVariable, resolve, h1, h2, h3]
  cases hr : resolveAux st (env + 1) env x with
  | none => rfl
  | some fid =>
    have hlt := resolveAux_some_lt st x (env + 1) env fid hr
    have heq : (pushFrame (some env) st).frames[fid]? = st.frames[fid]? := by
      simp [pushFrame]
      exact List.getElem?_append_left hlt
    show (match (pushFrame (some env) st).frames[fid]? with
      | some fr => (List.lookup x fr.vars).getD Value.undef
      | none => Value.undef) =
      match st.frames[fid]? with
      | some fr => (List.lookup x fr.vars).getD Value.undef
      | none => Value.undef
    rw [heq]

/-- C2: a macro invocation evaluates its body in a fresh child scope of the
**call-site** environment (the closure carries no definition environment), and
binds each declared parameter by trying the positional argument at its index,
then the caller's keyword arguments, then the declared default expression
evaluated in the call scope; a declared non-default parameter with no
positional argument fails the call.  Conjuncts: (1) invocation structure —
new frame appended as a child of the call-site environment, parameters bound
there, body rendered there; (2) the new frame's parent is the call-site
environment; (3) a parameterless macro body reading a variable sees exactly
the call-site chain; (4-8) the parameter-binding equations. -/
theorem C2_macro_call_site_binding :
    (∀ fuel params body args env st,
      applyFuncV (fuel + 1) (.funcMacro params body) args env st =
        Res.bind (bindMacroParams fuel params 0 (splitKwargsArg args).1
            (splitKwargsArg args).2 st.frames.length (pushFrame (some env) st))
          fun st2 => Res.bind (evalBlock fuel body st.frames.length st2)
            fun p => .ok (.str p.1, p.2)) ∧
    (∀ (env : Nat) (st : Store),
      (pushFrame (some env) st).frames[st.frames.length]? =
        some ⟨baseVars, some env⟩) ∧
    (∀ fuel x env st, storeWF st = true → env < st.frames.length →
      x ≠ "namespace" →
      applyFuncV (fuel + 3) (.funcMacro [] [.ident x]) [] env st =
        .ok (.str (if (lookupVariable st env x).tag = "NullValue" ∨
            (lookupVariable st env x).tag = "UndefinedValue" then ""
          else valueToString (lookupVariable st env x)),
          pushFrame (some env) st)) ∧
    (∀ fuel x rest idx (posArgs : List Value) kw fid st, posArgs[idx]? = none →
      bindMacroParams (fuel + 1) (.ident x :: rest) idx posArgs kw fid st =
        .err ("Missing positional argument: " ++ x)) ∧
    (∀ fuel x rest idx (posArgs : List Value) kw fid st v, posArgs[idx]? = some v →
      bindMacroParams (fuel + 1) (.ident x :: rest) idx posArgs kw fid st =
        bindMacroParams fuel rest (idx + 1) posArgs kw fid (setVar st fid x v)) ∧
    (∀ fuel key defExpr rest idx (posArgs : List Value) kw fid st v,
      posArgs[idx]? = some v →
      bindMacroParams (fuel + 1) (.kwargEx key defExpr :: rest) idx posArgs kw
          fid st =
        bindMacroParams fuel rest (idx + 1) posArgs kw fid
          (setVar st fid key v)) ∧
    (∀ fuel key defExpr rest idx (posArgs : List Value)
        (kw : Option (List (String × Value))) fid st v,
      posArgs[idx]? = none → (kw.bind fun m => m.lookup key) = some v →
      bindMacroParams (fuel + 1) (.kwargEx key defExpr :: rest) idx posArgs kw
          fid st =
        bindMacroParams fuel rest (idx + 1) posArgs kw fid
          (setVar st fid key v)) ∧
    (∀ fuel key defExpr rest idx (posArgs : List Value)
        (kw : Option (List (String × Value))) fid st,
      posArgs[idx]? = none → (kw.bind fun m => m.lookup key) = none →
      bindMacroParams (fuel + 1) (.kwargEx key defExpr :: rest) idx posArgs kw
          fid st =
        Res.bind (evalNode fuel defExpr fid st) fun p =>
          bindMacroParams fuel rest (idx + 1) posArgs kw fid
            (setVar p.2 fid key p.1)) := by
  refine ⟨fun _ _ _ _ _ _ => rfl, ?_, ?_, ?_, ?_, ?_, ?_, ?_⟩
  · intro env st
    simp [pushFrame]
  · intro fuel x env st hwf henv hx
    have hcomp : applyFuncV (fuel + 3) (.funcMacro [] [.ident x]) [] env st =
        .ok (.str ((if (lookupVariable (pushFrame (some env) st)
              st.frames.length x).tag = "NullValue" ∨
            (lookupVariable (pushFrame (some env) st) st.frames.length x).tag =
              "UndefinedValue" then ""
          else valueToString (lookupVariable (pushFrame (some env) st)
            st.frames.length x)) ++ ""), pushFrame (some env) st) := rfl
    rw [hcomp, lookup_through_new_frame st env x hwf henv hx]
    simp
  · intro fuel x rest idx posArgs kw fid st h
    simp [bindMacroParams, h]
  · intro fuel x rest idx posArgs kw fid st v h
    simp [bindMacroParams, h]
  · intro fuel key defExpr rest idx posArgs kw fid st v h
    simp [bindMacroParams, h]
  · intro fuel key defExpr rest idx posArgs kw fid st v h1 h2
    simp [bindMacroParams, h1, h2]
  · intro fuel key defExpr rest idx posArgs kw fid st h1 h2
    simp only [bindMacroParams, List.get?_eq_getElem?, Option.bind_eq_bind, h1, h2]
    rfl

/-- Witness for C2 at a store whose global frame binds `x` to `7`: calling a
parameterless macro whose body is `{{ x }}` renders `"7"` through the
call-site chain. -/
theorem C2_witness :
    applyFuncV 3 (.funcMacro [] [.ident "x"]) [] 0
        ⟨[⟨baseVars ++ [("x", .int 7)], none⟩]⟩ =
      .ok (.str (if (lookupVariable ⟨[⟨baseVars ++ [("x", .int 7)], none⟩]⟩ 0
            "x").tag = "NullValue" ∨
          (lookupVariable ⟨[⟨baseVars ++ [("x", .int 7)], none⟩]⟩ 0
            "x").tag = "UndefinedValue" then ""
        else valueToString (lookupVariable
          ⟨[⟨baseVars ++ [("x", .int 7)], none⟩]⟩ 0 "x")),
        pushFrame (some 0) ⟨[⟨baseVars ++ [("x", .int 7)], none⟩]⟩) :=
  C2_macro_call_site_binding.2.2.1 0 "x" 0
    ⟨[⟨baseVars ++ [("x", .int 7)], none⟩]⟩ rfl (by decide) (by decide)

/-! ## Lemmas about the `split` builtin (C6) -/

/-- The first element a `dropWhile` leaves in place fails the predicate. -/
theorem dropWhile_head_false (p : Char → Bool) :
    ∀ (l : List Char) (c : Char) (t : List Char),
      l.dropWhile p = c :: t → p c = false := by
  intro l
  induction l with
  | nil => intro c t h; exact absurd h (by simp)
  | cons a l ih =>
    intro c t h
    by_cases hp : p a
    · rw [List.dropWhile_cons_of_pos hp] at h
      exact ih c t h
    · rw [List.dropWhile_cons_of_neg hp] at h
      cases h
      exact eq_false_of_ne_true hp

/-- `splitWsAux` only looks at its input through `dropWhile jsIsSpace`. -/
theorem splitWsAux_dropWhile (fuel : Nat) (m : Int) (count : Nat)
    (cs : List Char) :
    splitWsAux (fuel + 1) m count cs =
      splitWsAux (fuel + 1) m count (cs.dropWhile jsIsSpace) := by
  simp only [splitWsAux, List.dropWhile_idempotent]

/-- For the unlimited mode `-1` the running count is irrelevant. -/
theorem splitWsAux_count_irrelevant :
    ∀ (fuel : Nat) (c1 c2 : Nat) (cs : List Char),
      splitWsAux fuel (-1) c1 cs = splitWsAux fuel (-1) c2 cs := by
  intro fuel
  induction fuel with
  | zero => intro c1 c2 cs; rfl
  | succ f ih =>
    intro c1 c2 cs
    simp only [splitWsAux]
    split
    · rfl
    · simp [ih (c1 + 1) (c2 + 1)]

/-- The remaining text after consuming the leading whitespace and the first
token is shorter than the input. -/
theorem splitWs_rest_length (cs : List Char) (c : Char) (t : List Char)
    (hcs : cs.dropWhile jsIsSpace = c :: t) :
    ((c :: t).dropWhile fun x => !jsIsSpace x).length < cs.length := by
  have hc : jsIsSpace c = false := dropWhile_head_false _ cs c t hcs
  have hlen : (c :: t).length ≤ cs.length :=
    hcs ▸ (List.dropWhile_suffix jsIsSpace).length_le
  have hrest : ((c :: t).dropWhile fun x => !jsIsSpace x) =
      t.dropWhile fun x => !jsIsSpace x :=
    List.dropWhile_cons_of_pos (by simp [hc])
  have := (List.dropWhile_suffix (l := t) fun x => !jsIsSpace x).length_le
  rw [hrest]
  simp only [List.length_cons] at hlen
  omega

/-- Any fuel exceeding the input length gives the same result. -/
theorem splitWsAux_fuel_congr (m : Int) :
    ∀ (n : Nat) (cs : List Char) (f1 f2 count : Nat), cs.length ≤ n →
      cs.length < f1 → cs.length < f2 →
      splitWsAux f1 m count cs = splitWsAux f2 m count cs := by
  intro n
  induction n with
  | zero =>
    intro cs f1 f2 count hn h1 h2
    have hcs : cs = [] := List.eq_nil_of_length_eq_zero (by omega)
    subst hcs
    obtain ⟨a, rfl⟩ : ∃ a, f1 = a + 1 := ⟨f1 - 1, by omega⟩
    obtain ⟨b, rfl⟩ : ∃ b, f2 = b + 1 := ⟨f2 - 1, by omega⟩
    simp [splitWsAux]
  | succ n' ih =>
    intro cs f1 f2 count hn h1 h2
    obtain ⟨a, rfl⟩ : ∃ a, f1 = a + 1 := ⟨f1 - 1, by omega⟩
    obtain ⟨b, rfl⟩ : ∃ b, f2 = b + 1 := ⟨f2 - 1, by omega⟩
    simp only [splitWsAux]
    cases hcs : cs.dropWhile jsIsSpace with
    | nil => simp
    | cons c t =>
      simp only [List.isEmpty_cons, Bool.false_eq_true, if_false]
      by_cases hlim : m ≠ -1 ∧ m ≤ (count : Int)
      · rw [if_pos hlim, if_pos hlim]
      · rw [if_neg hlim, if_neg hlim]
        have hrl := splitWs_rest_length cs c t hcs
        rw [ih ((c :: t).dropWhile fun x => !jsIsSpace x) a b (count + 1)
          (by omega) (by omega) (by omega)]

/-- A whitespace-only input splits to nothing. -/
theorem pySplitWs_of_blank (cs : List Char) (m : Int)
    (h : cs.dropWhile jsIsSpace = []) : pySplitWs cs m = [] := by
  simp [pySplitWs, h, splitWsAux]

/-- Unlimited whitespace split: the first maximal non-space run is the first
token, and the rest of the tokens come from the remaining text. -/
theorem pySplitWs_cons (cs : List Char) (c : Char) (t : List Char)
    (hcs : cs.dropWhile jsIsSpace = c :: t) :
    pySplitWs cs (-1) =
      ((c :: t).takeWhile fun x => !jsIsSpace x) ::
        pySplitWs ((c :: t).dropWhile fun x => !jsIsSpace x) (-1) := by
  have hc : jsIsSpace c = false := dropWhile_head_false jsIsSpace cs c t hcs
  have hrl := splitWs_rest_length cs c t hcs
  have hstep : pySplitWs cs (-1) =
      ((c :: t).takeWhile fun x => !jsIsSpace x) ::
        splitWsAux cs.length (-1) 1 ((c :: t).dropWhile fun x => !jsIsSpace x) := by
    simp only [pySplitWs, hcs, splitWsAux]
    rw [List.dropWhile_cons_of_neg (by simp [hc])]
    simp
  rw [hstep,
    splitWsAux_count_irrelevant cs.length 1 0
      ((c :: t).dropWhile fun x => !jsIsSpace x),
    splitWsAux_fuel_congr (-1) (((c :: t).dropWhile fun x => !jsIsSpace x).length)
      ((c :: t).dropWhile fun x => !jsIsSpace x) cs.length
      (((c :: t).dropWhile fun x => !jsIsSpace x).length + 1) 0 le_rfl hrl
      (by omega),
    splitWsAux_dropWhile]
  rfl

/-- A leading whitespace character is irrelevant to the whitespace split. -/
theorem pySplitWs_drop_space (c : Char) (l : List Char) (hc : jsIsSpace c = true)
    (m : Int) : pySplitWs (c :: l) m = pySplitWs l m := by
  simp only [pySplitWs, List.dropWhile_cons_of_pos hc]
  exact splitWsAux_fuel_congr m (l.dropWhile jsIsSpace).length
    (l.dropWhile jsIsSpace) ((c :: l).length + 1) (l.length + 1) 0 le_rfl
    (by have := (List.dropWhile_suffix (l := l) jsIsSpace).length_le; simp; omega)
    (by have := (List.dropWhile_suffix (l := l) jsIsSpace).length_le; omega)

/-- The whitespace mode with `maxsplit = -1` is exactly: split at every
whitespace character and drop the empty chunks (the maximal non-space runs,
with leading and trailing whitespace trimmed). -/
theorem pySplitWs_eq_splitOnP :
    ∀ (n : Nat) (cs : List Char), cs.length ≤ n →
      pySplitWs cs (-1) =
        (cs.splitOnP jsIsSpace).filter fun t => !t.isEmpty := by
  intro n
  induction n with
  | zero =>
    intro cs hn
    have hcs : cs = [] := List.eq_nil_of_length_eq_zero (by omega)
    subst hcs
    simp [pySplitWs, splitWsAux, List.splitOnP_nil]
  | succ n' ih =>
    intro cs hn
    cases cs with
    | nil => simp [pySplitWs, splitWsAux, List.splitOnP_nil]
    | cons c l =>
      by_cases hc : jsIsSpace c
      · rw [pySplitWs_drop_space c l hc, List.splitOnP_cons, if_pos hc]
        simp only [List.filter_cons, List.isEmpty_nil, Bool.not_true,
          Bool.false_eq_true, if_false]
        exact ih l (by simpa using Nat.le_of_succ_le_succ (by simpa using hn))
      · have hc' : jsIsSpace c = false := eq_false_of_ne_true hc
        have hdw : (c :: l).dropWhile jsIsSpace = c :: l :=
          List.dropWhile_cons_of_neg (by simp [hc'])
        rw [pySplitWs_cons (c :: l) c l hdw]
        have hsplit : (c :: l).takeWhile (fun x => !jsIsSpace x) ++
            (c :: l).dropWhile (fun x => !jsIsSpace x) = c :: l :=
          List.takeWhile_append_dropWhile _ _
        have htok : (c :: l).takeWhile (fun x => !jsIsSpace x) =
            c :: l.takeWhile (fun x => !jsIsSpace x) :=
          List.takeWhile_cons_of_pos (by simp [hc'])
        cases hrest : (c :: l).dropWhile (fun x => !jsIsSpace x) with
        | nil =>
          have hall : ∀ x ∈ c :: l, ¬jsIsSpace x := by
            intro x hx
            have := List.dropWhile_eq_nil_iff.mp hrest x hx
            simp at this
            simp [this]
          rw [List.splitOnP_eq_single jsIsSpace (c :: l) (fun x hx => by
            simpa using hall x hx)]
          rw [hrest] at hsplit
          rw [List.append_nil] at hsplit
          simp [pySplitWs, splitWsAux, hsplit, htok]
        | cons sep as =>
          have hsep : jsIsSpace sep = true := by
            have := dropWhile_head_false (fun x => !jsIsSpace x) (c :: l) sep as
              hrest
            simpa using this
          have hmem : ∀ x ∈ (c :: l).takeWhile (fun x => !jsIsSpace x),
              ¬(jsIsSpace x = true) := by
            intro x hx
            have := List.mem_takeWhile_imp hx
            simp at this
            simp [this]
          have hrw : (c :: l).splitOnP jsIsSpace =
              ((c :: l).takeWhile (fun x => !jsIsSpace x)) :: as.splitOnP jsIsSpace := by
            conv =>
              lhs
              rw [← hsplit, hrest]
            exact List.splitOnP_first jsIsSpace
              ((c :: l).takeWhile fun x => !jsIsSpace x) hmem sep hsep as
          rw [hrw]
          have hlen : as.length ≤ n' := by
            have h1 : (sep :: as).length ≤ (c :: l).length := by
              rw [← hrest]
              exact (List.dropWhile_suffix (fun x => !jsIsSpace x)).length_le
            simp at h1 hn
            omega
          rw [pySplitWs_drop_space sep as hsep, ih as hlen]
          simp only [List.filter_cons, htok]
          simp

/-- Once the part count has reached a `maxsplit` other than `-1`, the entire
remaining text from the next token on — interior whitespace included —
becomes the one final element. -/
theorem splitWsAux_limit (fuel : Nat) (k : Int) (count : Nat) (cs : List Char)
    (hk : k ≠ -1) (hle : k ≤ (count : Int)) :
    splitWsAux (fuel + 1) k count cs =
      if (cs.dropWhile jsIsSpace).isEmpty then [] else [cs.dropWhile jsIsSpace] := by
  simp only [splitWsAux]
  by_cases he : (cs.dropWhile jsIsSpace).isEmpty
  · rw [if_pos he, if_pos he]
  · rw [if_neg he, if_neg he, if_pos ⟨hk, hle⟩]

/-- Budget characterization of the whitespace mode: with `b` parts still
allowed, the result is the full token list when it has at most `b` tokens, and
otherwise the first `b` tokens followed by one final element — a suffix of the
input that starts at the next token (no leading whitespace) and carries
exactly the remaining tokens. -/
theorem splitWsAux_budget :
    ∀ (n : Nat) (cs : List Char) (fuel count b : Nat), cs.length ≤ n →
      cs.length < fuel →
      (((pySplitWs cs (-1)).length ≤ b →
        splitWsAux fuel ((count : Int) + b) count cs = pySplitWs cs (-1)) ∧
      (b < (pySplitWs cs (-1)).length → ∃ rest,
        splitWsAux fuel ((count : Int) + b) count cs =
          (pySplitWs cs (-1)).take b ++ [rest] ∧
        rest.dropWhile jsIsSpace = rest ∧ rest ≠ [] ∧ rest <:+ cs ∧
        pySplitWs rest (-1) = (pySplitWs cs (-1)).drop b)) := by
  intro n
  induction n with
  | zero =>
    intro cs fuel count b hn hf
    have hcs : cs = [] := List.eq_nil_of_length_eq_zero (by omega)
    subst hcs
    obtain ⟨a, rfl⟩ : ∃ a, fuel = a + 1 := ⟨fuel - 1, by omega⟩
    constructor
    · intro _
      simp [splitWsAux, pySplitWs]
    · intro hb
      simp [pySplitWs, splitWsAux] at hb
  | succ n' ih =>
    intro cs fuel count b hn hf
    obtain ⟨a, rfl⟩ : ∃ a, fuel = a + 1 := ⟨fuel - 1, by omega⟩
    cases hdw : cs.dropWhile jsIsSpace with
    | nil =>
      have hT : pySplitWs cs (-1) = [] := pySplitWs_of_blank cs (-1) hdw
      constructor
      · intro _
        rw [hT]
        simp [splitWsAux, hdw]
      · intro hb
        rw [hT] at hb
        simp at hb
    | cons c t =>
      have hc : jsIsSpace c = false := dropWhile_head_false jsIsSpace cs c t hdw
      have hT := pySplitWs_cons cs c t hdw
      have hsufct : (c :: t) <:+ cs := hdw ▸ List.dropWhile_suffix jsIsSpace
      have hrl := splitWs_rest_length cs c t hdw
      cases b with
      | zero =>
        have hlim : splitWsAux (a + 1) ((count : Int) + 0) count cs =
            [c :: t] := by
          rw [splitWsAux_limit a ((count : Int) + 0) count cs (by omega)
            (by omega), hdw]
          simp
        constructor
        · intro hle
          rw [hT] at hle
          simp at hle
        · intro _
          refine ⟨c :: t, ?_, ?_, by simp, hsufct, ?_⟩
          · simp only [Nat.cast_zero]
            rw [hlim]
            simp
          · exact List.dropWhile_cons_of_neg (by simp [hc])
          · rw [List.drop_zero]
            have h1 : pySplitWs (c :: t) (-1) =
                splitWsAux ((c :: t).length + 1) (-1) 0 (c :: t) := by
              simp only [pySplitWs,
                List.dropWhile_cons_of_neg (show ¬jsIsSpace c = true by simp [hc])]
            have h2 : pySplitWs cs (-1) =
                splitWsAux (cs.length + 1) (-1) 0 (c :: t) := by
              simp only [pySplitWs, hdw]
            rw [h1, h2]
            exact splitWsAux_fuel_congr (-1) ((c :: t).length) (c :: t)
              ((c :: t).length + 1) (cs.length + 1) 0 le_rfl (by omega)
              (by have := hsufct.length_le; omega)
      | succ b' =>
        have hstep : splitWsAux (a + 1) ((count : Int) + (b' + 1)) count cs =
            ((c :: t).takeWhile fun x => !jsIsSpace x) ::
              splitWsAux a ((count : Int) + (b' + 1)) (count + 1)
                ((c :: t).dropWhile fun x => !jsIsSpace x) := by
          simp only [splitWsAux, hdw]
          rw [if_neg (by simp), if_neg (by omega)]
        have hcast : ((count : Int) + (b' + 1)) = (((count + 1 : Nat) : Int) + b') := by
          push_cast
          omega
        have hih := ih ((c :: t).dropWhile fun x => !jsIsSpace x) a (count + 1) b'
          (by omega) (by omega)
        constructor
        · intro hle
          rw [hT] at hle
          simp only [List.length_cons] at hle
          push_cast
          rw [hstep, hcast, hih.1 (by omega), hT]
        · intro hb
          rw [hT] at hb
          simp only [List.length_cons] at hb
          obtain ⟨rest, hres, hrd, hrne, hrsuf, hrtok⟩ := hih.2 (by omega)
          refine ⟨rest, ?_, hrd, hrne, ?_, ?_⟩
          · push_cast
            rw [hstep, hcast, hres, hT]
            simp
          · exact hrsuf.trans ((List.dropWhile_suffix _).trans hsufct)
          · rw [hrtok, hT]
            simp

/-- The separator split never produces an empty part list. -/
theorem splitSepAux_ne_nil :
    ∀ (fuel : Nat) (c0 : Char) (crest cs : List Char),
      splitSepAux fuel c0 crest cs ≠ [] := by
  intro fuel
  induction fuel with
  | zero => intro c0 crest cs; simp [splitSepAux]
  | succ f ih =>
    intro c0 crest cs
    cases cs with
    | nil => simp [splitSepAux]
    | cons c rest =>
      simp only [splitSepAux]
      by_cases hp : (c0 :: crest).isPrefixOf (c :: rest)
      · simp [hp]
      · simp only [hp, Bool.false_eq_true, if_false]
        cases h : splitSepAux f c0 crest rest with
        | nil => simp
        | cons t ts => simp

/-- Fuel beyond the input length is irrelevant to the separator split. -/
theorem splitSepAux_fuel_congr (c0 : Char) (crest : List Char) :
    ∀ (n : Nat) (cs : List Char) (f1 f2 : Nat), cs.length ≤ n →
      cs.length < f1 → cs.length < f2 →
      splitSepAux f1 c0 crest cs = splitSepAux f2 c0 crest cs := by
  intro n
  induction n with
  | zero =>
    intro cs f1 f2 hn h1 h2
    have hcs : cs = [] := List.eq_nil_of_length_eq_zero (by omega)
    subst hcs
    obtain ⟨a, rfl⟩ : ∃ a, f1 = a + 1 := ⟨f1 - 1, by omega⟩
    obtain ⟨b, rfl⟩ : ∃ b, f2 = b + 1 := ⟨f2 - 1, by omega⟩
    simp [splitSepAux]
  | succ n' ih =>
    intro cs f1 f2 hn h1 h2
    obtain ⟨a, rfl⟩ : ∃ a, f1 = a + 1 := ⟨f1 - 1, by omega⟩
    obtain ⟨b, rfl⟩ : ∃ b, f2 = b + 1 := ⟨f2 - 1, by omega⟩
    cases cs with
    | nil => rfl
    | cons c rest =>
      simp only [splitSepAux]
      by_cases hp : (c0 :: crest).isPrefixOf (c :: rest)
      · simp only [hp, if_true]
        rw [ih ((c :: rest).drop (crest.length + 1)) a b
          (by simp at hn ⊢; omega)
          (by have := List.length_drop (crest.length + 1) (c :: rest); simp at h1 ⊢; omega)
          (by have := List.length_drop (crest.length + 1) (c :: rest); simp at h2 ⊢; omega)]
      · simp only [hp, Bool.false_eq_true, if_false]
        rw [ih rest a b (by simp at hn; omega) (by simp at h1; omega)
          (by simp at h2; omega)]

/-- The head part of the separator split is a prefix of the input. -/
theorem splitSepAux_head_prefix (c0 : Char) (crest : List Char) :
    ∀ (n : Nat) (cs : List Char) (f : Nat) (t : List Char) (ts : List (List Char)),
      cs.length ≤ n → cs.length < f →
      splitSepAux f c0 crest cs = t :: ts → t <+: cs := by
  intro n
  induction n with
  | zero =>
    intro cs f t ts hn hf heq
    have hcs : cs = [] := List.eq_nil_of_length_eq_zero (by omega)
    subst hcs
    obtain ⟨a, rfl⟩ : ∃ a, f = a + 1 := ⟨f - 1, by omega⟩
    simp only [splitSepAux, List.cons.injEq] at heq
    rw [← heq.1]
  | succ n' ih =>
    intro cs f t ts hn hf heq
    obtain ⟨a, rfl⟩ : ∃ a, f = a + 1 := ⟨f - 1, by omega⟩
    cases cs with
    | nil =>
      simp only [splitSepAux, List.cons.injEq] at heq
      rw [← heq.1]
    | cons c rest =>
      simp only [splitSepAux] at heq
      by_cases hp : (c0 :: crest).isPrefixOf (c :: rest)
      · simp only [hp, if_true, List.cons.injEq] at heq
        rw [← heq.1]
        exact List.nil_prefix
      · simp only [hp, Bool.false_eq_true, if_false] at heq
        cases h' : splitSepAux a c0 crest rest with
        | nil => exact absurd h' (splitSepAux_ne_nil a c0 crest rest)
        | cons t' ts' =>
          rw [h'] at heq
          simp only [List.cons.injEq] at heq
          rw [← heq.1]
          exact List.cons_prefix_cons.mpr ⟨rfl,
            ih rest a t' ts' (by simp at hn; omega) (by simp at hf; omega) h'⟩

/-- Intercalate over a cons with nonempty tail unfolds to an append. -/
theorem intercalate_cons_of_ne_nil (sep x : List Char) (l : List (List Char))
    (h : l ≠ []) :
    List.intercalate sep (x :: l) = x ++ sep ++ List.intercalate sep l := by
  obtain ⟨y, l', rfl⟩ := List.exists_cons_of_ne_nil h
  simp [List.intercalate, List.intersperse_cons_cons, List.append_assoc]

/-- Prepending a character to the head part prepends it to the intercalation. -/
theorem intercalate_head_cons (sep : List Char) (c : Char) (t : List Char)
    (ts : List (List Char)) :
    List.intercalate sep ((c :: t) :: ts) = c :: List.intercalate sep (t :: ts) := by
  cases ts with
  | nil => simp [List.intercalate]
  | cons y ys =>
    rw [intercalate_cons_of_ne_nil sep (c :: t) (y :: ys) (by simp),
      intercalate_cons_of_ne_nil sep t (y :: ys) (by simp)]
    simp

/-- Joining the separator-split parts with the separator recovers the input. -/
theorem splitSepAux_intercalate (c0 : Char) (crest : List Char) :
    ∀ (n : Nat) (cs : List Char) (f : Nat), cs.length ≤ n → cs.length < f →
      List.intercalate (c0 :: crest) (splitSepAux f c0 crest cs) = cs := by
  intro n
  induction n with
  | zero =>
    intro cs f hn hf
    have hcs : cs = [] := List.eq_nil_of_length_eq_zero (by omega)
    subst hcs
    obtain ⟨a, rfl⟩ : ∃ a, f = a + 1 := ⟨f - 1, by omega⟩
    simp [splitSepAux, List.intercalate]
  | succ n' ih =>
    intro cs f hn hf
    obtain ⟨a, rfl⟩ : ∃ a, f = a + 1 := ⟨f - 1, by omega⟩
    cases cs with
    | nil => simp [splitSepAux, List.intercalate]
    | cons c rest =>
      simp only [splitSepAux]
      by_cases hp : (c0 :: crest).isPrefixOf (c :: rest)
      · simp only [hp, if_true]
        obtain ⟨tail, htail⟩ := (List.isPrefixOf_iff_prefix.mp hp)
        have hdrop : (c :: rest).drop (crest.length + 1) = tail := by
          rw [← htail]
          have : crest.length + 1 = (c0 :: crest).length := by simp
          rw [this, List.drop_left]
        rw [hdrop]
        have htl : tail.length ≤ n' := by
          have := congrArg List.length htail
          simp at this hn
          omega
        have htf : tail.length < a := by
          have := congrArg List.length htail
          simp at this hf
          omega
        rw [intercalate_cons_of_ne_nil (c0 :: crest) []
          (splitSepAux a c0 crest tail) (splitSepAux_ne_nil a c0 crest tail)]
        rw [ih tail a htl htf]
        have := htail.symm
        simp at this ⊢
        exact ⟨this.1.symm, this.2.symm⟩
      · simp only [hp, Bool.false_eq_true, if_false]
        cases h' : splitSepAux a c0 crest rest with
        | nil => exact absurd h' (splitSepAux_ne_nil a c0 crest rest)
        | cons t' ts' =>
          rw [intercalate_head_cons]
          have := ih rest a (by simp at hn; omega) (by simp at hf; omega)
          rw [h'] at this
          rw [this]

/-- No part of the separator split contains the separator as an infix. -/
theorem splitSepAux_no_infix (c0 : Char) (crest : List Char) :
    ∀ (n : Nat) (cs : List Char) (f : Nat), cs.length ≤ n → cs.length < f →
      ∀ part ∈ splitSepAux f c0 crest cs, ¬ (c0 :: crest) <:+: part := by
  intro n
  induction n with
  | zero =>
    intro cs f hn hf part hmem
    have hcs : cs = [] := List.eq_nil_of_length_eq_zero (by omega)
    subst hcs
    obtain ⟨a, rfl⟩ : ∃ a, f = a + 1 := ⟨f - 1, by omega⟩
    simp only [splitSepAux, List.mem_singleton] at hmem
    subst hmem
    simp
  | succ n' ih =>
    intro cs f hn hf part hmem
    obtain ⟨a, rfl⟩ : ∃ a, f = a + 1 := ⟨f - 1, by omega⟩
    cases cs with
    | nil =>
      simp only [splitSepAux, List.mem_singleton] at hmem
      subst hmem
      simp
    | cons c rest =>
      simp only [splitSepAux] at hmem
      by_cases hp : (c0 :: crest).isPrefixOf (c :: rest)
      · simp only [hp, if_true, List.mem_cons] at hmem
        rcases hmem with rfl | hmem
        · simp
        · have hdl : ((c :: rest).drop (crest.length + 1)).length ≤ n' := by
            rw [List.length_drop]
            simp at hn ⊢
            omega
          have hdf : ((c :: rest).drop (crest.length + 1)).length < a := by
            rw [List.length_drop]
            simp at hf ⊢
            omega
          exact ih ((c :: rest).drop (crest.length + 1)) a hdl hdf part hmem
      · simp only [hp, Bool.false_eq_true, if_false] at hmem
        cases h' : splitSepAux a c0 crest rest with
        | nil => exact absurd h' (splitSepAux_ne_nil a c0 crest rest)
        | cons t' ts' =>
          rw [h'] at hmem
          simp only [List.mem_cons] at hmem
          have hrl : rest.length ≤ n' := by simp at hn; omega
          have hrf : rest.length < a := by simp at hf; omega
          rcases hmem with rfl | hmem
          · intro hinf
            rcases List.infix_cons_iff.mp hinf with hpre | hinf'
            · have ht'p : t' <+: rest :=
                splitSepAux_head_prefix c0 crest n' rest a t' ts' hrl hrf h'
              have : (c0 :: crest) <+: (c :: rest) :=
                hpre.trans (List.cons_prefix_cons.mpr ⟨rfl, ht'p⟩)
              exact hp (List.isPrefixOf_iff_prefix.mpr this)
            · exact ih rest a hrl hrf t' (h' ▸ List.mem_cons_self t' ts') hinf'
          · exact ih rest a hrl hrf part (h' ▸ List.mem_cons_of_mem t' hmem)

/-- Unfolding of the `split` builtin in separator mode with an integer
maxsplit argument. -/
theorem splitBuiltin_sep_int (s : String) (c0 : Char) (crest : List Char)
    (m : Int) :
    splitBuiltin s [.str (String.mk (c0 :: crest)), .int m] =
      .ok (.array
        ((if m ≠ -1 ∧ m < ((jsSplitSep s.toList c0 crest).length : Int) then
            (jsSplitSep s.toList c0 crest).take
              (if m < 0 then
                (((jsSplitSep s.toList c0 crest).length : Int) + m).toNat
              else m.toNat) ++
            [List.intercalate (c0 :: crest)
              ((jsSplitSep s.toList c0 crest).drop
                (if m < 0 then
                  (((jsSplitSep s.toList c0 crest).length : Int) + m).toNat
                else m.toNat))]
          else jsSplitSep s.toList c0 crest).map
          fun t => .str (String.mk t))) := rfl

/-- C6: For every string receiver, `split` with sep=Null splits on runs of
whitespace with leading whitespace trimmed (whitespace mode equals
`splitOnP` with empty tokens dropped); once maxsplit parts have been
produced, the entire remainder — with no leading whitespace, a suffix of the
input carrying all remaining tokens including interior whitespace — becomes
the final element (and a maxsplit at or above the token count changes
nothing).  With a string sep it splits on every occurrence (joining the
parts with sep recovers the input and no part contains sep), an empty sep
is an error, and once maxsplit splits are done the remaining parts are
rejoined with sep as the final element. -/
theorem C6_split_builtin :
    (∀ (s : String) (m : Int),
      callBuiltin (.str s) "split" [.null, .int m] =
        .ok (.array ((pySplitWs s.toList m).map fun t => .str (String.mk t)))) ∧
    (∀ cs : List Char,
      pySplitWs cs (-1) = (cs.splitOnP jsIsSpace).filter fun t => !t.isEmpty) ∧
    (∀ (cs : List Char) (b : Nat),
      ((pySplitWs cs (-1)).length ≤ b →
        pySplitWs cs (b : Int) = pySplitWs cs (-1)) ∧
      (b < (pySplitWs cs (-1)).length → ∃ rest,
        pySplitWs cs (b : Int) = (pySplitWs cs (-1)).take b ++ [rest] ∧
        rest.dropWhile jsIsSpace = rest ∧ rest ≠ [] ∧ rest <:+ cs ∧
        pySplitWs rest (-1) = (pySplitWs cs (-1)).drop b)) ∧
    (∀ s : String,
      callBuiltin (.str s) "split" [.str ""] = .error "empty separator") ∧
    (∀ (s : String) (c0 : Char) (crest : List Char),
      callBuiltin (.str s) "split" [.str (String.mk (c0 :: crest))] =
        .ok (.array ((jsSplitSep s.toList c0 crest).map
          fun t => .str (String.mk t))) ∧
      List.intercalate (c0 :: crest) (jsSplitSep s.toList c0 crest) = s.toList ∧
      ∀ part ∈ jsSplitSep s.toList c0 crest, ¬ (c0 :: crest) <:+: part) ∧
    (∀ (s : String) (c0 : Char) (crest : List Char) (m : Nat),
      ((m : Int) < ((jsSplitSep s.toList c0 crest).length : Int) →
        callBuiltin (.str s) "split"
            [.str (String.mk (c0 :: crest)), .int (m : Int)] =
          .ok (.array (((jsSplitSep s.toList c0 crest).take m ++
            [List.intercalate (c0 :: crest)
              ((jsSplitSep s.toList c0 crest).drop m)]).map
            fun t => .str (String.mk t)))) ∧
      (((jsSplitSep s.toList c0 crest).length : Int) ≤ (m : Int) →
        callBuiltin (.str s) "split"
            [.str (String.mk (c0 :: crest)), .int (m : Int)] =
          .ok (.array ((jsSplitSep s.toList c0 crest).map
            fun t => .str (String.mk t))))) := by
  refine ⟨fun s m => rfl, fun cs => pySplitWs_eq_splitOnP cs.length cs le_rfl,
    fun cs b => ?_, fun s => rfl, fun s c0 crest => ?_, fun s c0 crest m => ?_⟩
  · constructor
    · intro hle
      have h1 := (splitWsAux_budget cs.length cs (cs.length + 1) 0 b le_rfl
        (by omega)).1 hle
      simp only [Nat.cast_zero, zero_add] at h1
      show splitWsAux (cs.length + 1) (b : Int) 0 (cs.dropWhile jsIsSpace) = _
      rw [← splitWsAux_dropWhile]
      exact h1
    · intro hlt
      obtain ⟨rest, h1, h2, h3, h4, h5⟩ :=
        (splitWsAux_budget cs.length cs (cs.length + 1) 0 b le_rfl
          (by omega)).2 hlt
      simp only [Nat.cast_zero, zero_add] at h1
      refine ⟨rest, ?_, h2, h3, h4, h5⟩
      show splitWsAux (cs.length + 1) (b : Int) 0 (cs.dropWhile jsIsSpace) = _
      rw [← splitWsAux_dropWhile]
      exact h1
  · exact ⟨rfl,
      splitSepAux_intercalate c0 crest s.toList.length s.toList
        (s.toList.length + 1) le_rfl (by omega),
      fun part hmem =>
        splitSepAux_no_infix c0 crest s.toList.length s.toList
          (s.toList.length + 1) le_rfl (by omega) part hmem⟩
  · constructor
    · intro hlt
      have h0 : callBuiltin (.str s) "split"
          [.str (String.mk (c0 :: crest)), .int (m : Int)] =
          splitBuiltin s [.str (String.mk (c0 :: crest)), .int (m : Int)] := rfl
      rw [h0, splitBuiltin_sep_int, if_pos ⟨by omega, hlt⟩,
        if_neg (by omega : ¬ ((m : Int) < 0))]
      have hto : ((m : Int)).toNat = m := by omega
      rw [hto]
    · intro hle
      have h0 : callBuiltin (.str s) "split"
          [.str (String.mk (c0 :: crest)), .int (m : Int)] =
          splitBuiltin s [.str (String.mk (c0 :: crest)), .int (m : Int)] := rfl
      rw [h0, splitBuiltin_sep_int, if_neg (by omega)]

/-- Witness: splitting "a,b,,c" on "," with maxsplit 2 keeps the first two
parts and rejoins the rest. -/
theorem C6_witness :
    ((2 : Nat) : Int) < ((jsSplitSep "a,b,,c".toList ',' []).length : Int) ∧
    callBuiltin (.str "a,b,,c") "split"
        [.str (String.mk (',' :: [])), .int ((2 : Nat) : Int)] =
      .ok (.array (((jsSplitSep "a,b,,c".toList ',' []).take 2 ++
        [List.intercalate (',' :: [])
          ((jsSplitSep "a,b,,c".toList ',' []).drop 2)]).map
        fun t => .str (String.mk t))) :=
  ⟨by decide, (C6_split_builtin.2.2.2.2.2 "a,b,,c" ',' [] 2).1 (by decide)⟩

end Jinja
